import Mathlib

/-!
Verification development for the GitHub Issues JSON-RPC service
(`main.py`, with the modular variant in `crud.py`).

Strings from the Python source are modelled as `List Char` (`PyStr`), so that
Python's `str.strip`, `str.split`, `str.startswith` and the relevant fragment
of `urllib.parse.urlparse` can be embedded as structural recursions.  The
database session is modelled explicitly: SQLAlchemy's `delete`/`bulk_save_objects`
act on an uncommitted *pending* table, `commit` publishes it and `rollback`
discards it, which is what makes the reconciler's replace operation atomic.
-/

namespace GithubApp

abbrev PyStr := List Char

/-- Whitespace characters recognised by Python's `str.strip()` with no
arguments (`Py_UNICODE_ISSPACE`): ASCII 9-13, 28-31, space, NEL, NBSP and the
Unicode space separators. -/
def pyWs (c : Char) : Bool :=
  let n := c.toNat
  decide ((9 ≤ n ∧ n ≤ 13) ∨ (28 ≤ n ∧ n ≤ 31) ∨ n = 32 ∨ n = 133 ∨ n = 160 ∨
    n = 5760 ∨ (8192 ≤ n ∧ n ≤ 8202) ∨ n = 8232 ∨ n = 8233 ∨ n = 8239 ∨
    n = 8287 ∨ n = 12288)

/-- Python `s.strip()`: remove leading and trailing whitespace. -/
def pyStrip (s : PyStr) : PyStr :=
  ((s.dropWhile pyWs).reverse.dropWhile pyWs).reverse

/-- Python `s.startswith(p)`. -/
def startsWithL : PyStr → PyStr → Bool
  | [], _ => true
  | _ :: _, [] => false
  | a :: p, b :: s => decide (a = b) && startsWithL p s

/-- Python `s.split(sep)` for a one-character separator: split on *every*
occurrence, keeping empty pieces (`"".split(sep) = [""]`). -/
def splitOnChar (sep : Char) : PyStr → List PyStr
  | [] => [[]]
  | c :: rest =>
    match splitOnChar sep rest with
    | [] => [[]]
    | h :: t => if c = sep then [] :: h :: t else (c :: h) :: t

/-- Python `s.strip(sep)` for a one-character argument: remove every leading
and trailing occurrence of `sep`. -/
def stripAllChar (sep : Char) (s : PyStr) : PyStr :=
  ((s.dropWhile (fun c => decide (c = sep))).reverse.dropWhile
    (fun c => decide (c = sep))).reverse

/-- Whether `pat` occurs as a contiguous substring of `s`. -/
def hasSub (pat : PyStr) : PyStr → Bool
  | [] => pat.isEmpty
  | c :: rest => startsWithL pat (c :: rest) || hasSub pat rest

/-! Fragment of `urllib.parse.urlparse` exercised by the normalizer.
`urlsplit` first strips leading/trailing WHATWG "C0 control or space"
characters, removes every tab/CR/LF, splits off the scheme at the first `:`,
reads the network location after `//` up to the first `/`, `?` or `#`, and
cuts the fragment (first `#`) and query (first `?`).  `urlparse` additionally
splits `;parameters` off the last path segment. -/

/-- Strip of *leading* C0-control-or-space characters done by `urlsplit`
(CPython only lstrips, to preserve trailing spaces some applications rely on). -/
def stripC0 (s : PyStr) : PyStr :=
  s.dropWhile (fun c => decide (c.toNat ≤ 32))

/-- Removal of tab, carriage-return and line-feed characters done by `urlsplit`. -/
def dropTabCrLf (s : PyStr) : PyStr :=
  s.filter (fun c => !(decide (c = '\t') || decide (c = '\r') || decide (c = '\n')))

/-- Drop everything up to and including the first `:` (the scheme separator). -/
def dropThroughColon : PyStr → PyStr
  | [] => []
  | c :: t => if c = ':' then t else dropThroughColon t

/-- A character that ends the network-location part of a URL. -/
def notNetlocDelim (c : Char) : Bool :=
  !(decide (c = '/') || decide (c = '?') || decide (c = '#'))

/-- The `;parameters` split of `urlparse`: drop a `;`-suffix of the last
`/`-segment (of the whole string when it contains no `/`). -/
def splitParams (p : PyStr) : PyStr :=
  if '/' ∈ p then
    let rev := p.reverse
    let lastSeg := rev.takeWhile (fun c => !(decide (c = '/')))
    let pre := rev.dropWhile (fun c => !(decide (c = '/')))
    pre.reverse ++ (lastSeg.reverse.takeWhile (fun c => !(decide (c = ';'))))
  else p.takeWhile (fun c => !(decide (c = ';')))

/-- `urlparse(s).path` for a string that starts with `http://` or `https://`. -/
def urlPath (s : PyStr) : PyStr :=
  let s1 := dropTabCrLf (stripC0 s)
  let s2 := (dropThroughColon s1).drop 2
  let rest := s2.dropWhile notNetlocDelim
  let p1 := rest.takeWhile (fun c => !(decide (c = '#')))
  let p2 := p1.takeWhile (fun c => !(decide (c = '?')))
  splitParams p2

def invalidIdentMsg : PyStr := "Invalid repository identifier".toList
def invalidUrlMsg : PyStr := "Invalid github URL format".toList
def needSepMsg : PyStr :=
  "Repository identifier must be in formats: owner/repo, owner repo, or a GitHub URL".toList
def needTwoMsg : PyStr := "Repository identifier must include owner and repo".toList

/-- `normalize_repo_identifier` from `main.py`: URL branch takes the first two
pieces of `path.strip('/').split('/')`; otherwise one leading `/` is removed
and the string is split on all occurrences of the first separator found among
space, comma, slash (empty pieces discarded, the two results `strip`ped). -/
def normalize_repo_identifier (raw : PyStr) : Except PyStr (PyStr × PyStr) :=
  if raw = [] then .error invalidIdentMsg
  else
    let s := pyStrip raw
    if startsWithL "http://".toList s || startsWithL "https://".toList s then
      match splitOnChar '/' (stripAllChar '/' (urlPath s)) with
      | a :: b :: _ => .ok (a, b)
      | _ => .error invalidUrlMsg
    else
      let s1 := if startsWithL "/".toList s then s.drop 1 else s
      if ' ' ∈ s1 then
        match (splitOnChar ' ' s1).filter (fun p => !p.isEmpty) with
        | a :: b :: _ => .ok (pyStrip a, pyStrip b)
        | _ => .error needTwoMsg
      else if ',' ∈ s1 then
        match (splitOnChar ',' s1).filter (fun p => !p.isEmpty) with
        | a :: b :: _ => .ok (pyStrip a, pyStrip b)
        | _ => .error needTwoMsg
      else if '/' ∈ s1 then
        match (splitOnChar '/' s1).filter (fun p => !p.isEmpty) with
        | a :: b :: _ => .ok (pyStrip a, pyStrip b)
        | _ => .error needTwoMsg
      else .error needSepMsg

/-- Characters of `owner`/`repo` for which the normalizer roundtrip of claim
C6 (as amended) holds: no Python whitespace — tabs and the like are eaten by
`strip()` and URL cleaning, which is what refutes the original claim — and
none of the characters the normalizer or the URL parse treat as delimiters
(`,` `/` `?` `#` `;`). -/
def goodChar (c : Char) : Bool :=
  !pyWs c && !(decide (c = ',') || decide (c = '/') || decide (c = '?') ||
    decide (c = '#') || decide (c = ';'))

/-! ## Data model

`FetchOperation` and `Issue` rows (`main.py`).  The `issues` table's
autoincrement surrogate key plays no role in any operation modelled here and
is omitted; an `Issue` row is its column contents.  Timestamps are carried as
the values produced by `parse_github_time`, which is orthogonal to every
claim and is threaded through as a parameter `pt` where the source calls it. -/

structure FetchOperation where
  id : Nat
  tracking_id : PyStr
  repo_name : PyStr
  created_at : Option Nat
  updated_at : Option Nat
deriving DecidableEq, Repr

structure IssueData where
  issue_id : Option Int
  title : Option PyStr
  body : Option PyStr
  state : Option PyStr
  labels : Option PyStr
  created_at : Option PyStr
  updated_at : Option PyStr
  url : Option PyStr
  repo_name : Option PyStr
deriving DecidableEq, Repr

/-- One element of the `issues` list handed to the reconciler: the field
contents of the Python dict, plus whether `Issue(**itm)` succeeds on it
(`wellFormed`: the dict's key set matches the model's columns) and whether the
dict carries an `issue_id` key at all (`hasIssueIdKey`: read by `crud.py`'s
warning log). -/
structure RawItem where
  data : IssueData
  wellFormed : Bool
  hasIssueIdKey : Bool
deriving DecidableEq, Repr

structure IssueRow where
  data : IssueData
  fetch_operation_id : Option Nat
deriving DecidableEq, Repr

structure ReplaceSummary where
  tracking_id : PyStr
  total_issues : Nat
  repo_name : PyStr
deriving DecidableEq, Repr

/-- `get_or_create_fetch_operation` (identical in `main.py` and `crud.py`):
look up the first row with this `repo_name`; refresh its `updated_at` if
found, otherwise insert a fresh row.  The random `tracking_id` default and
the autoincrement id are supplied as parameters `freshTid`/`freshId`; the
call commits before returning. -/
def get_or_create_fetch_operation (st : List FetchOperation) (repo_name : PyStr)
    (now freshId : Nat) (freshTid : PyStr) : (FetchOperation × Bool) × List FetchOperation :=
  match st.find? (fun f => decide (f.repo_name = repo_name)) with
  | some f =>
    (({ f with updated_at := some now }, false),
      st.map (fun g => if g.repo_name = repo_name then { g with updated_at := some now } else g))
  | none =>
    let f : FetchOperation := ⟨freshId, freshTid, repo_name, some now, some now⟩
    ((f, true), st ++ [f])

/-! ## Session model

SQLAlchemy session for the `issues` table: `delete`/`bulk_save_objects`
mutate only the uncommitted `pending` table; `commit` publishes `pending`,
`rollback` restores `committed`. -/

structure Sess where
  committed : List IssueRow
  pending : List IssueRow
deriving DecidableEq, Repr

def sessBegin (st : List IssueRow) : Sess := ⟨st, st⟩

def sessDeleteByFetchOp (fid : Nat) (s : Sess) : Sess :=
  ⟨s.committed, s.pending.filter (fun r => !(decide (r.fetch_operation_id = some fid)))⟩

def sessBulkSave (objs : List IssueRow) (s : Sess) : Sess :=
  ⟨s.committed, s.pending ++ objs⟩

def sessCommit (s : Sess) : Sess := ⟨s.pending, s.pending⟩

def sessRollback (s : Sess) : Sess := ⟨s.committed, s.committed⟩

def tagIssue (fid : Nat) (itm : RawItem) : IssueRow := ⟨itm.data, some fid⟩

/-- `Issue(**itm_copy)` after `itm_copy["fetch_operation_id"] = fetch_operation.id`:
succeeds exactly when the dict is well formed (the guarded `int(...)`
conversion of `issue_id` never raises and is the identity on our
already-integer ids). -/
def buildIssue (fid : Nat) (itm : RawItem) : Option IssueRow :=
  if itm.wellFormed then some (tagIssue fid itm) else none

/-- The construction loop of `replace_issues_for_fetch` in `main.py`: there is
no per-item handler, so the first malformed item raises out of the loop. -/
def buildAll (fid : Nat) : List RawItem → Option (List IssueRow)
  | [] => some []
  | itm :: rest =>
    match buildIssue fid itm, buildAll fid rest with
    | some r, some rs => some (r :: rs)
    | _, _ => none

def issueIdsOf (l : List IssueRow) : List (Option Int) := l.map (fun r => r.data.issue_id)

/-- Constraints the MySQL table of `main.py` enforces at commit time:
`issue_id` is `nullable=False` and carries a unique index. -/
def mainConstraintsOk (pending : List IssueRow) : Bool :=
  pending.all (fun r => r.data.issue_id.isSome) && decide (issueIdsOf pending).Nodup

/-- Constraints of the `models.py` table used by `crud.py`: `issue_id` is
nullable there, but non-null values must be unique. -/
def crudConstraintsOk (pending : List IssueRow) : Bool :=
  decide ((issueIdsOf pending).filterMap id).Nodup

/-- Injected failure points inside the delete-then-insert transaction. -/
inductive FailPoint
  | atDelete
  | beforeInsert
  | atCommit
deriving DecidableEq, Repr

def deleteFailMsg : PyStr := "delete failed".toList
def insertFailMsg : PyStr := "insert failed".toList
def commitFailMsg : PyStr := "commit failed".toList
def ctorFailMsg : PyStr := "issue constructor failed".toList
def integrityFailMsg : PyStr := "integrity error".toList
def keyErrMsg : PyStr := "KeyError: issue_id".toList

/-- `replace_issues_for_fetch` from `main.py` with an injected fault: delete
the rows of this fetch operation, build the new rows (no per-item recovery),
bulk-save and commit; any exception in the `try` block rolls the session back
and re-raises.  The returned list is the *committed* table. -/
def replaceRun (st : List IssueRow) (issues : List RawItem) (fetch_operation : FetchOperation)
    (fault : Option FailPoint) : List IssueRow × Except PyStr ReplaceSummary :=
  let s0 := sessBegin st
  if fault = some FailPoint.atDelete then ((sessRollback s0).committed, .error deleteFailMsg)
  else
    let s1 := sessDeleteByFetchOp fetch_operation.id s0
    if fault = some FailPoint.beforeInsert then ((sessRollback s1).committed, .error insertFailMsg)
    else
      match buildAll fetch_operation.id issues with
      | none => ((sessRollback s1).committed, .error ctorFailMsg)
      | some objs =>
        let s2 := sessBulkSave objs s1
        if fault = some FailPoint.atCommit then
          ((sessRollback s2).committed, .error commitFailMsg)
        else if mainConstraintsOk s2.pending then
          ((sessCommit s2).committed,
            .ok ⟨fetch_operation.tracking_id, objs.length, fetch_operation.repo_name⟩)
        else ((sessRollback s2).committed, .error integrityFailMsg)

def replace_issues_for_fetch (st : List IssueRow) (issues : List RawItem)
    (fetch_operation : FetchOperation) : List IssueRow × Except PyStr ReplaceSummary :=
  replaceRun st issues fetch_operation none

/-- The rows the Issue store holds for a given `fetch_operation_id` — what a
read of the snapshot observes. -/
def currentSnapshot (fid : Nat) (st : List IssueRow) : List IssueRow :=
  st.filter (fun r => decide (r.fetch_operation_id = some fid))

/-- The rows the delete step of the reconciler keeps. -/
def otherRows (fid : Nat) (st : List IssueRow) : List IssueRow :=
  st.filter (fun r => !(decide (r.fetch_operation_id = some fid)))

/-- The construction loop of `create_issue` in `crud.py`: a failing
`Issue(**issue)` is caught per item, but the warning `print` then reads
`issue['issue_id']`, so a malformed item *without* an `issue_id` key raises
`KeyError` out of the handler. -/
def crudBuildAll (fid : Nat) : List RawItem → Except PyStr (List IssueRow)
  | [] => .ok []
  | itm :: rest =>
    if itm.wellFormed then
      match crudBuildAll fid rest with
      | .ok rs => .ok (tagIssue fid itm :: rs)
      | .error e => .error e
    else if itm.hasIssueIdKey then crudBuildAll fid rest
    else .error keyErrMsg

/-- `create_issue` from `crud.py`: like the replace of `main.py` but with the
per-item skip in the construction loop. -/
def create_issue (st : List IssueRow) (issues : List RawItem)
    (fetch_operation : FetchOperation) : List IssueRow × Except PyStr ReplaceSummary :=
  let s1 := sessDeleteByFetchOp fetch_operation.id (sessBegin st)
  match crudBuildAll fetch_operation.id issues with
  | .error e => ((sessRollback s1).committed, .error e)
  | .ok objs =>
    let s2 := sessBulkSave objs s1
    if crudConstraintsOk s2.pending then
      ((sessCommit s2).committed,
        .ok ⟨fetch_operation.tracking_id, objs.length, fetch_operation.repo_name⟩)
    else ((sessRollback s2).committed, .error integrityFailMsg)

/-! ## GitHub client and the `fetch_issues` handler -/

/-- One element of the JSON array returned by the GitHub issues endpoint, as
read by `handle_fetch_issues_rpc` and `monitor_loop`: `isPR` is whether the
object carries a `pull_request` key. -/
structure GhIssue where
  isPR : Bool
  id : Option Int
  number : Option Int
  title : Option PyStr
  body : Option PyStr
  state : Option PyStr
  labels : List PyStr
  created_at : Option PyStr
  updated_at : Option PyStr
  html_url : Option PyStr
deriving DecidableEq, Repr

/-- `",".join(label names) if issue.get("labels") else None`. -/
def joinLabels (labels : List PyStr) : Option PyStr :=
  if labels.isEmpty then none else some (List.intercalate [','] labels)

/-- The dict literal built for each non-pull-request issue in
`handle_fetch_issues_rpc`; its key set matches the `Issue` columns, so the
constructor succeeds on it and it carries an `issue_id` key. -/
def processGhIssue (pt : Option PyStr → Option PyStr) (repoFull : PyStr) (g : GhIssue) : RawItem :=
  { data :=
      { issue_id := g.id, title := g.title, body := g.body, state := g.state,
        labels := joinLabels g.labels, created_at := pt g.created_at,
        updated_at := pt g.updated_at, url := g.html_url, repo_name := some repoFull },
    wellFormed := true, hasIssueIdKey := true }

/-- The `issues_to_insert` list of `handle_fetch_issues_rpc`: pull requests
are skipped, everything else is mapped to an `Issue`-shaped dict. -/
def issuesToInsert (pt : Option PyStr → Option PyStr) (repoFull : PyStr)
    (data : List GhIssue) : List RawItem :=
  (data.filter (fun g => !g.isPR)).map (processGhIssue pt repoFull)

/-- The single request URL built by `handle_fetch_issues_rpc` (line 284). -/
def fetch_issues_url (owner repo : PyStr) : PyStr :=
  "https://api.github.com/repos/".toList ++ owner ++ "/".toList ++ repo ++
    "/issues?state=all&per_page=100".toList

/-- The request URL built on every tick of `monitor_loop` (line 388). -/
def monitor_fetch_url (owner repo : PyStr) : PyStr :=
  "https://api.github.com/repos/".toList ++ owner ++ "/".toList ++ repo ++
    "/issues?state=open&per_page=100".toList

/-- Outcome of the single `requests.get`: a transport-level exception, or a
non-2xx response caught by `raise_for_status`. -/
inductive HttpFailure
  | netError
  | badStatus (code : Nat) (body : PyStr)
deriving DecidableEq, Repr

/-- JSON-RPC error code the handler reports for each failure: `-32002` for a
GitHub HTTP error, `-32000` from the catch-all `except`. -/
def httpFailCode : HttpFailure → Int
  | .netError => -32000
  | .badStatus _ _ => -32002

structure DB where
  fops : List FetchOperation
  issues : List IssueRow
deriving DecidableEq, Repr

structure FetchOkResult where
  count : Nat
  tracking_id : PyStr
  repo_name : PyStr
deriving DecidableEq, Repr

/-- `handle_fetch_issues_rpc`: normalize the identifier, get-or-create the
fetch operation (this commits), then perform the one GitHub request — whose
outcome is the parameter `resp`; there is no pagination loop — and on success
run the replace.  Errors are surfaced as JSON-RPC error codes, never as
success. -/
def handle_fetch_issues (pt : Option PyStr → Option PyStr) (db : DB) (rawRepo : PyStr)
    (resp : Except HttpFailure (List GhIssue)) (now freshId : Nat) (freshTid : PyStr) :
    DB × Except Int FetchOkResult :=
  match normalize_repo_identifier rawRepo with
  | .error _ => (db, .error (-32602))
  | .ok (owner, repo) =>
    let repoFull := owner ++ '/' :: repo
    let gc := get_or_create_fetch_operation db.fops repoFull now freshId freshTid
    let fop := gc.1.1
    let db1 : DB := ⟨gc.2, db.issues⟩
    match resp with
    | .error e => (db1, .error (httpFailCode e))
    | .ok data =>
      let items := issuesToInsert pt repoFull data
      let rr := replace_issues_for_fetch db1.issues items fop
      match rr.2 with
      | .error _ => (⟨db1.fops, rr.1⟩, .error (-32000))
      | .ok _ => (⟨db1.fops, rr.1⟩, .ok ⟨items.length, fop.tracking_id, fop.repo_name⟩)

/-! ## Monitor supervisor and polling loop -/

/-- One tick of `monitor_loop`'s inner `for` over the fetched page: skip pull
requests, skip ids already in `seen`, otherwise add the id to `seen` and
attempt one webhook POST (delivery failures are swallowed and do not affect
the accounting).  Returns the ids POSTed this tick and the new `seen` set. -/
def tick : List (Option Int) → List GhIssue → List (Option Int) × List (Option Int)
  | seen, [] => ([], seen)
  | seen, g :: rest =>
    if g.isPR then tick seen rest
    else if g.id ∈ seen then tick seen rest
    else
      let r := tick (g.id :: seen) rest
      (g.id :: r.1, r.2)

/-- A whole run of `monitor_loop`: each element of `pages` is the outcome of
one tick's fetch (`none`: the fetch raised, the tick is skipped and the loop
sleeps).  Returns the concatenated list of ids for which a webhook POST was
attempted, in order. -/
def monitorRun : List (Option Int) → List (Option (List GhIssue)) → List (Option Int)
  | _, [] => []
  | seen, none :: rest => monitorRun seen rest
  | seen, some pg :: rest =>
    let t := tick seen pg
    t.1 ++ monitorRun t.2 rest

abbrev MonitorKey := PyStr × PyStr

/-- The process-wide `monitors` dict plus, for accounting, the key of every
loop ever spawned (`loops` grows exactly when a thread is started). -/
structure MonitorState where
  monitors : List MonitorKey
  loops : List MonitorKey
deriving DecidableEq, Repr

def startedStatus : PyStr := "monitoring_started".toList
def alreadyStatus : PyStr := "already_monitoring".toList

/-- The registry logic of `handle_schedule_monitor_rpc`: if the key is
present return `already_monitoring` and spawn nothing, else spawn one loop,
register the key and return `monitoring_started`. -/
def schedule_monitor (st : MonitorState) (key : MonitorKey) : PyStr × MonitorState :=
  if key ∈ st.monitors then (alreadyStatus, st)
  else (startedStatus, ⟨st.monitors ++ [key], st.loops ++ [key]⟩)

/-- A sequence of `schedule_monitor` calls against the initially empty
registry. -/
def runSchedule (calls : List MonitorKey) : MonitorState :=
  calls.foldl (fun st k => (schedule_monitor st k).2) ⟨[], []⟩

/-! ## Concrete example values (used by witnesses and counterexamples) -/

def exData (n : Int) : IssueData :=
  ⟨some n, none, none, none, none, none, none, none, none⟩

/-- A well-formed input item whose dict matches the `Issue` columns. -/
def exGood (n : Int) : RawItem := ⟨exData n, true, true⟩

/-- A malformed input item (unexpected key, so the constructor raises) that
still carries an `issue_id` entry. -/
def exBad (n : Int) : RawItem := ⟨exData n, false, true⟩

def exFop : FetchOperation := ⟨1, "t1".toList, "acme/widgets".toList, some 0, some 0⟩

def exFop2 : FetchOperation := ⟨2, "t2".toList, "other/repo".toList, some 0, some 0⟩

def exRow (fid : Nat) (n : Int) : IssueRow := ⟨exData n, some fid⟩

def exGhIssue (n : Int) (pr : Bool) : GhIssue :=
  ⟨pr, some n, some n, none, none, some "open".toList, [], none, none, none⟩

def exKey : MonitorKey := ("acme/widgets".toList, "https://hooks.example/notify".toList)

/-- First polled page: one open issue and one pull request. -/
def exPg1 : List GhIssue := [exGhIssue 5 false, exGhIssue 6 true]

/-- Second polled page: issue 5 again plus a new issue 7. -/
def exPg2 : List GhIssue := [exGhIssue 5 false, exGhIssue 7 false]

def exPages : List (Option (List GhIssue)) := [some exPg1, none, some exPg2]

/-! ## Lemmas about the reconciler -/

theorem buildAll_of_wf (fid : Nat) (issues : List RawItem)
    (h : ∀ itm ∈ issues, itm.wellFormed = true) :
    buildAll fid issues = some (issues.map (tagIssue fid)) := by
  induction issues with
  | nil => rfl
  | cons itm rest ih =>
    have h1 : itm.wellFormed = true := h itm (by simp)
    have h2 := ih (fun x hx => h x (by simp [hx]))
    simp [buildAll, buildIssue, h1, h2]

theorem buildAll_some (fid : Nat) (issues : List RawItem) (objs : List IssueRow)
    (h : buildAll fid issues = some objs) : objs = issues.map (tagIssue fid) := by
  induction issues generalizing objs with
  | nil => simpa [buildAll] using h.symm
  | cons itm rest ih =>
    by_cases hw : itm.wellFormed
    · cases hb : buildAll fid rest with
      | none => simp [buildAll, buildIssue, hw, hb] at h
      | some rs =>
        simp [buildAll, buildIssue, hw, hb] at h
        simp [← h, ih rs hb]
    · simp [buildAll, buildIssue, hw] at h

theorem buildAll_none_of_bad (fid : Nat) (issues : List RawItem)
    (h : ∃ itm ∈ issues, itm.wellFormed = false) : buildAll fid issues = none := by
  induction issues with
  | nil => simp at h
  | cons itm rest ih =>
    rcases h with ⟨bad, hmem, hbad⟩
    rcases List.mem_cons.mp hmem with h1 | h1
    · subst h1
      simp [buildAll, buildIssue, hbad]
    · have := ih ⟨bad, h1, hbad⟩
      cases hb : buildIssue fid itm <;> simp [buildAll, hb, this]

theorem crudBuildAll_of_keys (fid : Nat) (issues : List RawItem)
    (h : ∀ itm ∈ issues, itm.hasIssueIdKey = true) :
    crudBuildAll fid issues =
      .ok ((issues.filter (fun itm => itm.wellFormed)).map (tagIssue fid)) := by
  induction issues with
  | nil => rfl
  | cons itm rest ih =>
    have h2 := ih (fun x hx => h x (by simp [hx]))
    by_cases hw : itm.wellFormed
    · simp [crudBuildAll, hw, h2, List.filter_cons]
    · have h1 : itm.hasIssueIdKey = true := h itm (by simp)
      simp [crudBuildAll, hw, h1, h2, List.filter_cons]

theorem currentSnapshot_replaced (fid : Nat) (st objs : List IssueRow)
    (hobs : ∀ r ∈ objs, r.fetch_operation_id = some fid) :
    currentSnapshot fid (otherRows fid st ++ objs) = objs := by
  unfold currentSnapshot otherRows
  rw [List.filter_append]
  have h1 : (st.filter (fun r => !(decide (r.fetch_operation_id = some fid)))).filter
      (fun r => decide (r.fetch_operation_id = some fid)) = [] := by
    rw [List.filter_filter]
    refine List.filter_eq_nil_iff.mpr (fun a _ => ?_)
    by_cases hx : a.fetch_operation_id = some fid <;> simp [hx]
  have h2 : objs.filter (fun r => decide (r.fetch_operation_id = some fid)) = objs :=
    List.filter_eq_self.mpr (fun r hr => by simp [hobs r hr])
  rw [h1, h2, List.nil_append]

theorem tagIssue_fop_id (fid : Nat) (issues : List RawItem) :
    ∀ r ∈ issues.map (tagIssue fid), r.fetch_operation_id = some fid := by
  intro r hr
  rcases List.mem_map.mp hr with ⟨itm, _, h⟩
  simp [← h, tagIssue]

/-- Behaviour of a successful `replace_issues_for_fetch` call, read off from
the fault-free run. -/
theorem replace_ok_spec (st : List IssueRow) (issues : List RawItem) (fop : FetchOperation)
    (st' : List IssueRow) (s : ReplaceSummary)
    (h : replace_issues_for_fetch st issues fop = (st', .ok s)) :
    st' = otherRows fop.id st ++ issues.map (tagIssue fop.id) ∧
    s = ⟨fop.tracking_id, issues.length, fop.repo_name⟩ := by
  unfold replace_issues_for_fetch replaceRun at h
  simp only [sessBegin, sessDeleteByFetchOp, sessBulkSave, sessCommit, sessRollback] at h
  cases hb : buildAll fop.id issues with
  | none => simp [hb] at h
  | some objs =>
    have hobjs := buildAll_some fop.id issues objs hb
    by_cases hc : mainConstraintsOk
        (st.filter (fun r => !(decide (r.fetch_operation_id = some fop.id))) ++ objs) = true
    · simp [hb, hc] at h
      refine ⟨?_, ?_⟩
      · rw [← h.1, hobjs]; rfl
      · rw [← h.2, hobjs]; simp
    · simp [hb, hc] at h

/-! ## Claims C1, C2, C4 -/

/-- Claim C1: for every FetchOperation `f` and list `L` of issue records, a
successful `replace_issues_for_fetch(db, L, f)` leaves the Issue store
containing, for `fetch_operation_id = f.id`, exactly the issues of `L` and
nothing else (every row of the previous snapshot is gone), and returns the
summary `{tracking_id = f.tracking_id, total_issues = |L|, repo_name =
f.repo_name}`. -/
theorem C1_replace_installs_snapshot (st : List IssueRow) (issues : List RawItem)
    (fop : FetchOperation) (st' : List IssueRow) (s : ReplaceSummary)
    (h : replace_issues_for_fetch st issues fop = (st', .ok s)) :
    s = ⟨fop.tracking_id, issues.length, fop.repo_name⟩ ∧
    currentSnapshot fop.id st' = issues.map (tagIssue fop.id) := by
  obtain ⟨h1, h2⟩ := replace_ok_spec st issues fop st' s h
  refine ⟨h2, ?_⟩
  rw [h1]
  exact currentSnapshot_replaced _ _ _ (tagIssue_fop_id _ _)

theorem C1_witness :
    (⟨"t1".toList, 2, "acme/widgets".toList⟩ : ReplaceSummary)
        = ⟨exFop.tracking_id, [exGood 1, exGood 2].length, exFop.repo_name⟩ ∧
    currentSnapshot exFop.id [tagIssue exFop.id (exGood 1), tagIssue exFop.id (exGood 2)]
        = [exGood 1, exGood 2].map (tagIssue exFop.id) :=
  C1_replace_installs_snapshot [exRow 1 5] [exGood 1, exGood 2] exFop _ _ rfl

/-- Claim C2: whatever point of the delete-then-insert transaction fails, the
transaction is rolled back and the committed Issue store is exactly the prior
state; any observed store is the complete old set or the complete new set,
never a mix; and a failed replace is reported as an error, never as success. -/
theorem C2_replace_atomic (st : List IssueRow) (issues : List RawItem) (fop : FetchOperation)
    (fault : Option FailPoint) (st' : List IssueRow) (res : Except PyStr ReplaceSummary)
    (h : replaceRun st issues fop fault = (st', res)) :
    (∀ e, res = .error e → st' = st) ∧
    (st' = st ∨ st' = otherRows fop.id st ++ issues.map (tagIssue fop.id)) ∧
    (fault ≠ none → ∀ s, res ≠ .ok s) := by
  unfold replaceRun at h
  simp only [sessBegin, sessDeleteByFetchOp, sessBulkSave, sessCommit, sessRollback] at h
  rcases fault with _ | fp
  · cases hb : buildAll fop.id issues with
    | none =>
      simp [hb] at h
      obtain ⟨h1, h2⟩ := h
      subst h1; subst h2
      exact ⟨fun _ _ => rfl, Or.inl rfl, fun hf => absurd rfl hf⟩
    | some objs =>
      by_cases hc : mainConstraintsOk
          (st.filter (fun r => !(decide (r.fetch_operation_id = some fop.id))) ++ objs) = true
      · simp [hb, hc] at h
        obtain ⟨h1, h2⟩ := h
        subst h1; subst h2
        refine ⟨fun e he => by simp at he, Or.inr ?_, fun hf => absurd rfl hf⟩
        rw [buildAll_some fop.id issues objs hb]; rfl
      · simp [hb, hc] at h
        obtain ⟨h1, h2⟩ := h
        subst h1; subst h2
        exact ⟨fun _ _ => rfl, Or.inl rfl, fun hf => absurd rfl hf⟩
  · cases fp
    · simp at h
      obtain ⟨h1, h2⟩ := h
      subst h1; subst h2
      exact ⟨fun _ _ => rfl, Or.inl rfl, fun _ s hs => by simp at hs⟩
    · simp at h
      obtain ⟨h1, h2⟩ := h
      subst h1; subst h2
      exact ⟨fun _ _ => rfl, Or.inl rfl, fun _ s hs => by simp at hs⟩
    · cases hb : buildAll fop.id issues with
      | none =>
        simp [hb] at h
        obtain ⟨h1, h2⟩ := h
        subst h1; subst h2
        exact ⟨fun _ _ => rfl, Or.inl rfl, fun _ s hs => by simp at hs⟩
      | some objs =>
        simp [hb] at h
        obtain ⟨h1, h2⟩ := h
        subst h1; subst h2
        exact ⟨fun _ _ => rfl, Or.inl rfl, fun _ s hs => by simp at hs⟩

theorem C2_witness :
    ((replaceRun [exRow 1 5] [exGood 1] exFop (some FailPoint.beforeInsert)).1 = [exRow 1 5]) ∧
    (∀ s, (replaceRun [exRow 1 5] [exGood 1] exFop (some FailPoint.beforeInsert)).2 ≠ .ok s) := by
  have h := C2_replace_atomic [exRow 1 5] [exGood 1] exFop (some FailPoint.beforeInsert)
    (replaceRun [exRow 1 5] [exGood 1] exFop (some FailPoint.beforeInsert)).1
    (replaceRun [exRow 1 5] [exGood 1] exFop (some FailPoint.beforeInsert)).2 rfl
  exact ⟨h.1 insertFailMsg rfl, h.2.2 (by simp)⟩

/-- Counterexample to claim C4 as stated: in `main.py`'s
`replace_issues_for_fetch` a single malformed item (here `exBad 2`, on which
the `Issue` constructor raises) aborts the *whole* batch — the transaction
rolls back and the error propagates, so the remaining well-formed items
`exGood 1` and `exGood 3` are not inserted, contradicting "that single item
is skipped … and all remaining well-formed items of the batch are still
inserted and committed". -/
theorem C4_counterexample :
    (exGood 1).wellFormed = true ∧ (exBad 2).wellFormed = false ∧
    (exGood 3).wellFormed = true ∧
    replace_issues_for_fetch [] [exGood 1, exBad 2, exGood 3] exFop
      = ([], .error ctorFailMsg) := by
  exact ⟨rfl, rfl, rfl, rfl⟩

/-- Claim C4 as amended: the skip-with-warning behaviour lives in `crud.py`'s
`create_issue`, where a malformed item is skipped (provided its dict still
carries an `issue_id` key, which the warning log reads) and all remaining
well-formed items are inserted and committed; in `main.py`'s
`replace_issues_for_fetch` any malformed item instead aborts the whole batch
with a rollback and the error propagates. -/
theorem C4_amended_per_item_skip (st : List IssueRow) (issues : List RawItem)
    (fop : FetchOperation)
    (hkeys : ∀ itm ∈ issues, itm.hasIssueIdKey = true)
    (hok : crudConstraintsOk (otherRows fop.id st ++
      (issues.filter (fun itm => itm.wellFormed)).map (tagIssue fop.id)) = true) :
    create_issue st issues fop =
      (otherRows fop.id st ++ (issues.filter (fun itm => itm.wellFormed)).map (tagIssue fop.id),
        .ok ⟨fop.tracking_id, (issues.filter (fun itm => itm.wellFormed)).length,
          fop.repo_name⟩) ∧
    ((∃ itm ∈ issues, itm.wellFormed = false) →
      replace_issues_for_fetch st issues fop = (st, .error ctorFailMsg)) := by
  constructor
  · unfold create_issue
    simp only [sessBegin, sessDeleteByFetchOp, sessBulkSave, sessCommit, sessRollback]
    rw [crudBuildAll_of_keys fop.id issues hkeys]
    unfold otherRows at hok ⊢
    simp [hok]
  · intro hbad
    unfold replace_issues_for_fetch replaceRun
    simp [buildAll_none_of_bad fop.id issues hbad, sessBegin, sessDeleteByFetchOp, sessRollback]

theorem C4_witness :
    (create_issue [] [exGood 1, exBad 2, exGood 3] exFop =
      (otherRows exFop.id [] ++
        (([exGood 1, exBad 2, exGood 3].filter (fun itm => itm.wellFormed)).map
          (tagIssue exFop.id)),
        .ok ⟨exFop.tracking_id,
          ([exGood 1, exBad 2, exGood 3].filter (fun itm => itm.wellFormed)).length,
          exFop.repo_name⟩)) ∧
    ((∃ itm ∈ [exGood 1, exBad 2, exGood 3], itm.wellFormed = false) →
      replace_issues_for_fetch [] [exGood 1, exBad 2, exGood 3] exFop
        = ([], .error ctorFailMsg)) :=
  C4_amended_per_item_skip [] [exGood 1, exBad 2, exGood 3] exFop (by decide) (by decide)

/-! ## Claim C5 -/

/-- Claim C5: calling `get_or_create_fetch_operation` twice in sequence for
the same `repo_name` (starting from a store with no row for it) returns the
same `tracking_id` both times, `created = True` then `created = False`, and
leaves exactly one FetchOperation row for that `repo_name`, whose
`tracking_id` is never reassigned by the second call. -/
theorem C5_get_or_create_idempotent (st : List FetchOperation) (repo : PyStr)
    (n1 n2 id1 id2 : Nat) (tid1 tid2 : PyStr)
    (hfresh : ∀ f ∈ st, f.repo_name ≠ repo) :
    (get_or_create_fetch_operation st repo n1 id1 tid1).1.2 = true ∧
    (get_or_create_fetch_operation st repo n1 id1 tid1).1.1.tracking_id = tid1 ∧
    (get_or_create_fetch_operation
        (get_or_create_fetch_operation st repo n1 id1 tid1).2 repo n2 id2 tid2).1.2 = false ∧
    (get_or_create_fetch_operation
        (get_or_create_fetch_operation st repo n1 id1 tid1).2 repo n2 id2 tid2).1.1.tracking_id
      = tid1 ∧
    ((get_or_create_fetch_operation
        (get_or_create_fetch_operation st repo n1 id1 tid1).2 repo n2 id2 tid2).2).filter
        (fun f => decide (f.repo_name = repo))
      = [⟨id1, tid1, repo, some n1, some n2⟩] := by
  have hnone : st.find? (fun f => decide (f.repo_name = repo)) = none :=
    List.find?_eq_none.mpr (fun f hf => by simp [hfresh f hf])
  have e1 : get_or_create_fetch_operation st repo n1 id1 tid1 =
      ((⟨id1, tid1, repo, some n1, some n1⟩, true),
        st ++ [⟨id1, tid1, repo, some n1, some n1⟩]) := by
    unfold get_or_create_fetch_operation
    rw [hnone]
  have hfind2 : (st ++ [(⟨id1, tid1, repo, some n1, some n1⟩ : FetchOperation)]).find?
      (fun f => decide (f.repo_name = repo))
      = some ⟨id1, tid1, repo, some n1, some n1⟩ := by
    rw [List.find?_append, hnone]
    simp
  have e2 : get_or_create_fetch_operation
      (st ++ [(⟨id1, tid1, repo, some n1, some n1⟩ : FetchOperation)]) repo n2 id2 tid2 =
      ((⟨id1, tid1, repo, some n1, some n2⟩, false),
        (st ++ [(⟨id1, tid1, repo, some n1, some n1⟩ : FetchOperation)]).map
          (fun g => if g.repo_name = repo then { g with updated_at := some n2 } else g)) := by
    unfold get_or_create_fetch_operation
    rw [hfind2]
  have hmap : (st ++ [(⟨id1, tid1, repo, some n1, some n1⟩ : FetchOperation)]).map
      (fun g => if g.repo_name = repo then { g with updated_at := some n2 } else g)
      = st ++ [⟨id1, tid1, repo, some n1, some n2⟩] := by
    rw [List.map_append]
    congr 1
    · have hid : ∀ g ∈ st,
          (if g.repo_name = repo then { g with updated_at := some n2 } else g) = id g :=
        fun g hg => if_neg (hfresh g hg)
      rw [List.map_congr_left hid, List.map_id]
    · simp
  rw [e1]
  simp only [e2, hmap]
  refine ⟨trivial, trivial, trivial, trivial, ?_⟩
  rw [List.filter_append]
  have h1 : st.filter (fun f => decide (f.repo_name = repo)) = [] :=
    List.filter_eq_nil_iff.mpr (fun f hf => by simp [hfresh f hf])
  rw [h1]
  simp

theorem C5_witness :
    (get_or_create_fetch_operation [] "golang/go".toList 10 1 "tid-a".toList).1.2 = true ∧
    (get_or_create_fetch_operation [] "golang/go".toList 10 1 "tid-a".toList).1.1.tracking_id
      = "tid-a".toList ∧
    (get_or_create_fetch_operation
        (get_or_create_fetch_operation [] "golang/go".toList 10 1 "tid-a".toList).2
        "golang/go".toList 20 2 "tid-b".toList).1.2 = false ∧
    (get_or_create_fetch_operation
        (get_or_create_fetch_operation [] "golang/go".toList 10 1 "tid-a".toList).2
        "golang/go".toList 20 2 "tid-b".toList).1.1.tracking_id = "tid-a".toList ∧
    ((get_or_create_fetch_operation
        (get_or_create_fetch_operation [] "golang/go".toList 10 1 "tid-a".toList).2
        "golang/go".toList 20 2 "tid-b".toList).2).filter
        (fun f => decide (f.repo_name = "golang/go".toList))
      = [⟨1, "tid-a".toList, "golang/go".toList, some 10, some 20⟩] :=
  C5_get_or_create_idempotent [] "golang/go".toList 10 20 1 2 "tid-a".toList "tid-b".toList
    (by simp)

/-! ## Lemmas about the monitor supervisor -/

theorem sched_inv (st : MonitorState) (key k : MonitorKey)
    (h1 : List.count k st.loops ≤ 1) (h2 : k ∈ st.loops → k ∈ st.monitors) :
    List.count k (schedule_monitor st key).2.loops ≤ 1 ∧
    (k ∈ (schedule_monitor st key).2.loops → k ∈ (schedule_monitor st key).2.monitors) := by
  unfold schedule_monitor
  by_cases hk : key ∈ st.monitors
  · simp only [if_pos hk]
    exact ⟨h1, h2⟩
  · simp only [if_neg hk]
    constructor
    · rw [List.count_append]
      by_cases hkey : k = key
      · subst hkey
        have hnot : k ∉ st.loops := fun hmem => hk (h2 hmem)
        rw [List.count_eq_zero_of_not_mem hnot]
        simp
      · have : List.count k [key] = 0 :=
          List.count_eq_zero_of_not_mem (by simp [hkey])
        omega
    · intro hmem
      rcases List.mem_append.mp hmem with h | h
      · exact List.mem_append.mpr (Or.inl (h2 h))
      · exact List.mem_append.mpr (Or.inr h)

theorem runSchedule_count_le_one (calls : List MonitorKey) :
    ∀ (st : MonitorState),
      (∀ k, List.count k st.loops ≤ 1 ∧ (k ∈ st.loops → k ∈ st.monitors)) →
      ∀ k, List.count k (calls.foldl (fun st c => (schedule_monitor st c).2) st).loops ≤ 1 := by
  induction calls with
  | nil => intro st h k; exact (h k).1
  | cons c rest ih =>
    intro st h k
    rw [List.foldl_cons]
    exact ih _ (fun k' => sched_inv st c k' (h k').1 (h k').2) k

/-! ## Claim C8 -/

/-- Claim C8: the monitors registry holds at most one loop per
`(repo_name, webhook_url)` key over any sequence of `schedule_monitor` calls;
an unregistered key spawns exactly one loop, registers the key and returns
`monitoring_started`; a registered key returns `already_monitoring` and
spawns nothing, so two calls with the same key yield `monitoring_started`
then `already_monitoring` with exactly one loop ever spawned for it. -/
theorem C8_monitor_dedup (calls : List MonitorKey) (key : MonitorKey) (st : MonitorState) :
    List.count key (runSchedule calls).loops ≤ 1 ∧
    (key ∉ st.monitors →
      schedule_monitor st key = (startedStatus, ⟨st.monitors ++ [key], st.loops ++ [key]⟩)) ∧
    (key ∈ st.monitors → schedule_monitor st key = (alreadyStatus, st)) ∧
    (key ∉ st.monitors →
      (schedule_monitor st key).1 = startedStatus ∧
      (schedule_monitor (schedule_monitor st key).2 key).1 = alreadyStatus ∧
      List.count key (schedule_monitor (schedule_monitor st key).2 key).2.loops
        = List.count key st.loops + 1) := by
  refine ⟨runSchedule_count_le_one calls ⟨[], []⟩ (fun k => by simp) key, ?_, ?_, ?_⟩
  · intro h
    simp [schedule_monitor, h]
  · intro h
    simp [schedule_monitor, h]
  · intro h
    have h2 : key ∈ st.monitors ++ [key] := List.mem_append.mpr (Or.inr (by simp))
    simp [schedule_monitor, h, h2, List.count_append]

theorem C8_witness :
    List.count exKey (runSchedule [exKey, exKey]).loops ≤ 1 ∧
    (schedule_monitor ⟨[], []⟩ exKey).1 = startedStatus ∧
    (schedule_monitor (schedule_monitor ⟨[], []⟩ exKey).2 exKey).1 = alreadyStatus ∧
    List.count exKey (schedule_monitor (schedule_monitor ⟨[], []⟩ exKey).2 exKey).2.loops
      = List.count exKey (MonitorState.mk [] []).loops + 1 := by
  have h := C8_monitor_dedup [exKey, exKey] exKey ⟨[], []⟩
  have h4 := h.2.2.2 (by simp)
  exact ⟨h.1, h4.1, h4.2.1, h4.2.2⟩

/-! ## Lemmas about the polling loop -/

theorem tick_posted_not_seen (pg : List GhIssue) :
    ∀ (seen : List (Option Int)) (v : Option Int), v ∈ (tick seen pg).1 → v ∉ seen := by
  induction pg with
  | nil => intro seen v h; simp [tick] at h
  | cons g rest ih =>
    intro seen v h
    by_cases hpr : g.isPR = true
    · rw [tick, if_pos hpr] at h
      exact ih seen v h
    · by_cases hseen : g.id ∈ seen
      · rw [tick, if_neg hpr, if_pos hseen] at h
        exact ih seen v h
      · rw [tick, if_neg hpr, if_neg hseen] at h
        simp only [List.mem_cons] at h
        rcases h with h | h
        · subst h; exact hseen
        · have hn := ih (g.id :: seen) v h
          intro hv
          exact hn (by simp [hv])

theorem tick_seen_mem (pg : List GhIssue) :
    ∀ (seen : List (Option Int)) (v : Option Int),
      v ∈ (tick seen pg).2 ↔ v ∈ (tick seen pg).1 ∨ v ∈ seen := by
  induction pg with
  | nil => intro seen v; simp [tick]
  | cons g rest ih =>
    intro seen v
    by_cases hpr : g.isPR = true
    · rw [tick, if_pos hpr]
      simpa using ih seen v
    · by_cases hseen : g.id ∈ seen
      · rw [tick, if_neg hpr, if_pos hseen]
        simpa using ih seen v
      · rw [tick, if_neg hpr, if_neg hseen]
        simp only [List.mem_cons]
        rw [ih (g.id :: seen) v]
        simp only [List.mem_cons]
        tauto

theorem tick_count (pg : List GhIssue) :
    ∀ (seen : List (Option Int)) (v : Option Int),
      List.count v (tick seen pg).1 ≤ 1 ∧
      (v ∈ seen → List.count v (tick seen pg).1 = 0) := by
  induction pg with
  | nil => intro seen v; simp [tick]
  | cons g rest ih =>
    intro seen v
    by_cases hpr : g.isPR = true
    · rw [tick, if_pos hpr]; exact ih seen v
    · by_cases hseen : g.id ∈ seen
      · rw [tick, if_neg hpr, if_pos hseen]; exact ih seen v
      · rw [tick, if_neg hpr, if_neg hseen]
        simp only [List.count_cons]
        constructor
        · by_cases hv : v = g.id
          · have h0 := (ih (g.id :: seen) v).2 (by simp [hv])
            have hb : (g.id == v) = true := by simp [hv]
            simp [h0, hb]
          · have h1 := (ih (g.id :: seen) v).1
            have hb : (g.id == v) = false := by
              simp only [beq_eq_false_iff_ne, ne_eq]
              intro hh
              exact hv hh.symm
            simp [hb]
            omega
        · intro hv
          have h0 := (ih (g.id :: seen) v).2 (by simp [hv])
          have hb : (g.id == v) = false := by
            simp only [beq_eq_false_iff_ne, ne_eq]
            intro hh
            exact hseen (hh ▸ hv)
          simp [h0, hb]

theorem monitorRun_seen_zero (pages : List (Option (List GhIssue))) :
    ∀ (seen : List (Option Int)) (v : Option Int),
      v ∈ seen → List.count v (monitorRun seen pages) = 0 := by
  induction pages with
  | nil => intro seen v _; simp [monitorRun]
  | cons page rest ih =>
    intro seen v hv
    cases page with
    | none => rw [monitorRun]; exact ih seen v hv
    | some pg =>
      rw [monitorRun]
      simp only [List.count_append]
      rw [(tick_count pg seen v).2 hv,
        ih (tick seen pg).2 v ((tick_seen_mem pg seen v).mpr (Or.inr hv))]

theorem monitorRun_count_le_one (pages : List (Option (List GhIssue))) :
    ∀ (seen : List (Option Int)) (v : Option Int),
      List.count v (monitorRun seen pages) ≤ 1 := by
  induction pages with
  | nil => intro seen v; simp [monitorRun]
  | cons page rest ih =>
    intro seen v
    cases page with
    | none => rw [monitorRun]; exact ih seen v
    | some pg =>
      rw [monitorRun]
      simp only [List.count_append]
      by_cases hv : v ∈ (tick seen pg).1
      · have h2 : List.count v (monitorRun (tick seen pg).2 rest) = 0 :=
          monitorRun_seen_zero rest (tick seen pg).2 v
            ((tick_seen_mem pg seen v).mpr (Or.inl hv))
        have h1 := (tick_count pg seen v).1
        omega
      · rw [List.count_eq_zero_of_not_mem hv]
        simpa using ih (tick seen pg).2 v

theorem tick_first_posts (pg : List GhIssue) :
    ∀ (seen : List (Option Int)) (g : GhIssue), g ∈ pg → g.isPR = false →
      g.id ∉ seen → g.id ∈ (tick seen pg).1 := by
  induction pg with
  | nil => intro seen g h; simp at h
  | cons g0 rest ih =>
    intro seen g hmem hpr hseen
    rcases List.mem_cons.mp hmem with h | h
    · subst h
      rw [tick, if_neg (by simp [hpr]), if_neg hseen]
      simp
    · by_cases hpr0 : g0.isPR = true
      · rw [tick, if_pos hpr0]
        exact ih seen g h hpr hseen
      · by_cases hseen0 : g0.id ∈ seen
        · rw [tick, if_neg hpr0, if_pos hseen0]
          exact ih seen g h hpr hseen
        · rw [tick, if_neg hpr0, if_neg hseen0]
          simp only [List.mem_cons]
          by_cases heq : g.id = g0.id
          · exact Or.inl heq
          · exact Or.inr (ih (g0.id :: seen) g h hpr (by simp [heq, hseen]))

theorem tick_length_le (pg : List GhIssue) :
    ∀ (seen : List (Option Int)), (tick seen pg).1.length ≤ pg.length := by
  induction pg with
  | nil => intro seen; simp [tick]
  | cons g rest ih =>
    intro seen
    by_cases hpr : g.isPR = true
    · rw [tick, if_pos hpr]
      exact le_trans (ih seen) (by simp)
    · by_cases hseen : g.id ∈ seen
      · rw [tick, if_neg hpr, if_pos hseen]
        exact le_trans (ih seen) (by simp)
      · rw [tick, if_neg hpr, if_neg hseen]
        simpa using ih (g.id :: seen)

/-! ## Claim C3 -/

/-- Claim C3: over a monitor loop's whole lifetime (any sequence of fetched
pages, with failed fetches skipping the tick) a webhook POST is attempted at
most once per issue identifier, and on the first tick a POST is attempted for
every non-pull-request issue the source returns, because `seen` starts
empty. -/
theorem C3_monitor_once_and_first_tick (pages : List (Option (List GhIssue)))
    (v : Option Int) (pg : List GhIssue) (rest : List (Option (List GhIssue))) :
    List.count v (monitorRun [] pages) ≤ 1 ∧
    (pages = some pg :: rest → ∀ g ∈ pg, g.isPR = false → g.id ∈ monitorRun [] pages) := by
  refine ⟨monitorRun_count_le_one pages [] v, ?_⟩
  intro hp g hmem hpr
  subst hp
  rw [monitorRun]
  exact List.mem_append.mpr
    (Or.inl (tick_first_posts pg [] g hmem hpr (by simp)))

theorem C3_witness :
    List.count (some 5) (monitorRun [] exPages) ≤ 1 ∧
    (exGhIssue 5 false).id ∈ monitorRun [] exPages := by
  have h := C3_monitor_once_and_first_tick exPages (some 5) exPg1 (exPages.drop 1)
  exact ⟨h.1, h.2 rfl (exGhIssue 5 false) (by simp [exPg1]) rfl⟩

/-! ## Lemmas about the fetch handler -/

theorem get_or_create_row_spec (st : List FetchOperation) (rn : PyStr)
    (now fid : Nat) (tid : PyStr) :
    (get_or_create_fetch_operation st rn now fid tid).1.1
        ∈ (get_or_create_fetch_operation st rn now fid tid).2 ∧
    (get_or_create_fetch_operation st rn now fid tid).1.1.repo_name = rn ∧
    (get_or_create_fetch_operation st rn now fid tid).1.1.updated_at = some now := by
  unfold get_or_create_fetch_operation
  cases hf : st.find? (fun f => decide (f.repo_name = rn)) with
  | none => simp
  | some f =>
    have hrn : f.repo_name = rn := by simpa using List.find?_some hf
    have hmem := List.mem_of_find?_eq_some hf
    refine ⟨?_, hrn, rfl⟩
    exact List.mem_map.mpr ⟨f, hmem, by rw [if_pos hrn]⟩

theorem hasSub_append (pat s t : PyStr) (h : hasSub pat t = true) :
    hasSub pat (s ++ t) = true := by
  induction s with
  | nil => simpa using h
  | cons c s' ih =>
    rw [List.cons_append, hasSub]
    simp [ih]

/-! ## Claim C10 -/

/-- Claim C10: when the remote fetch inside `fetch_issues` fails (network
error or non-2xx status), the caller receives an error response, but the
FetchOperation record was already created or had its `updated_at` refreshed
and committed before the remote call, so the registry reflects the
get-or-create while the previously stored issue snapshot is unchanged. -/
theorem C10_registry_committed_on_remote_failure (pt : Option PyStr → Option PyStr)
    (db : DB) (raw owner repo : PyStr) (err : HttpFailure)
    (now freshId : Nat) (freshTid : PyStr)
    (hnorm : normalize_repo_identifier raw = .ok (owner, repo)) :
    handle_fetch_issues pt db raw (.error err) now freshId freshTid
      = (⟨(get_or_create_fetch_operation db.fops (owner ++ '/' :: repo) now freshId
            freshTid).2, db.issues⟩,
         .error (httpFailCode err)) ∧
    (get_or_create_fetch_operation db.fops (owner ++ '/' :: repo) now freshId freshTid).1.1
      ∈ (get_or_create_fetch_operation db.fops (owner ++ '/' :: repo) now freshId freshTid).2 ∧
    (get_or_create_fetch_operation db.fops (owner ++ '/' :: repo) now freshId
        freshTid).1.1.repo_name = owner ++ '/' :: repo ∧
    (get_or_create_fetch_operation db.fops (owner ++ '/' :: repo) now freshId
        freshTid).1.1.updated_at = some now := by
  have hrow := get_or_create_row_spec db.fops (owner ++ '/' :: repo) now freshId freshTid
  refine ⟨?_, hrow.1, hrow.2.1, hrow.2.2⟩
  unfold handle_fetch_issues
  rw [hnorm]

theorem C10_witness :
    handle_fetch_issues (fun x => x) ⟨[], []⟩ "golang/go".toList (.error .netError) 7 1
        "tid-a".toList
      = (⟨(get_or_create_fetch_operation [] ("golang".toList ++ '/' :: "go".toList) 7 1
            "tid-a".toList).2, []⟩,
         .error (httpFailCode .netError)) ∧
    (get_or_create_fetch_operation [] ("golang".toList ++ '/' :: "go".toList) 7 1
        "tid-a".toList).1.1
      ∈ (get_or_create_fetch_operation [] ("golang".toList ++ '/' :: "go".toList) 7 1
        "tid-a".toList).2 ∧
    (get_or_create_fetch_operation [] ("golang".toList ++ '/' :: "go".toList) 7 1
        "tid-a".toList).1.1.repo_name = "golang".toList ++ '/' :: "go".toList ∧
    (get_or_create_fetch_operation [] ("golang".toList ++ '/' :: "go".toList) 7 1
        "tid-a".toList).1.1.updated_at = some 7 :=
  C10_registry_committed_on_remote_failure (fun x => x) ⟨[], []⟩ "golang/go".toList
    "golang".toList "go".toList .netError 7 1 "tid-a".toList rfl

/-! ## Claim C9 -/

/-- Claim C9: both the on-demand fetch and the monitor tick request a single
page with `per_page=100` (the built URLs carry that parameter and exactly one
request is made, with no pagination loop — the handler and the tick consume
one response), so when GitHub returns at most the first 100 items
(`full.take 100`), the stored snapshot and the tick's webhook batch cover at
most 100 items even when the repository has more issues. -/
theorem C9_single_page_of_100 (pt : Option PyStr → Option PyStr) (db : DB)
    (raw owner repo : PyStr) (full : List GhIssue)
    (now freshId : Nat) (freshTid : PyStr)
    (hnorm : normalize_repo_identifier raw = .ok (owner, repo)) :
    hasSub "per_page=100".toList (fetch_issues_url owner repo) = true ∧
    hasSub "per_page=100".toList (monitor_fetch_url owner repo) = true ∧
    (∀ db' res, handle_fetch_issues pt db raw (.ok (full.take 100)) now freshId freshTid
        = (db', .ok res) →
      res.count ≤ 100 ∧
      (currentSnapshot (get_or_create_fetch_operation db.fops (owner ++ '/' :: repo) now
          freshId freshTid).1.1.id db'.issues).length ≤ 100) ∧
    (∀ seen, ((tick seen (full.take 100)).1).length ≤ 100) := by
  have htake : (full.take 100).length ≤ 100 := List.length_take_le 100 full
  refine ⟨?_, ?_, ?_, ?_⟩
  · unfold fetch_issues_url
    repeat apply hasSub_append
    decide
  · unfold monitor_fetch_url
    repeat apply hasSub_append
    decide
  · intro db' res h
    unfold handle_fetch_issues at h
    rw [hnorm] at h
    simp only [] at h
    have hlen : (issuesToInsert pt (owner ++ '/' :: repo) (full.take 100)).length ≤ 100 := by
      unfold issuesToInsert
      rw [List.length_map]
      exact le_trans (List.length_filter_le _ _) htake
    cases hrr : replace_issues_for_fetch db.issues
        (issuesToInsert pt (owner ++ '/' :: repo) (full.take 100))
        (get_or_create_fetch_operation db.fops (owner ++ '/' :: repo) now freshId
          freshTid).1.1 with
    | mk st2 res2 =>
      rw [hrr] at h
      cases res2 with
      | error e => simp at h
      | ok s =>
        simp only [Prod.mk.injEq] at h
        obtain ⟨h1, h2⟩ := h
        have hres := Except.ok.inj h2
        subst h1
        refine ⟨?_, ?_⟩
        · rw [← hres]
          exact hlen
        · obtain ⟨hst, _⟩ := replace_ok_spec _ _ _ _ _ hrr
          dsimp only
          rw [hst, currentSnapshot_replaced _ _ _ (tagIssue_fop_id _ _), List.length_map]
          exact le_trans (le_of_eq rfl) hlen
  · intro seen
    exact le_trans (tick_length_le (full.take 100) seen) htake

theorem C9_witness :
    hasSub "per_page=100".toList (fetch_issues_url "golang".toList "go".toList) = true ∧
    hasSub "per_page=100".toList (monitor_fetch_url "golang".toList "go".toList) = true ∧
    (FetchOkResult.mk 0 "tid-a".toList "golang/go".toList).count ≤ 100 ∧
    (currentSnapshot (get_or_create_fetch_operation [] ("golang".toList ++ '/' :: "go".toList)
        0 1 "tid-a".toList).1.1.id
      ((DB.mk (get_or_create_fetch_operation [] ("golang".toList ++ '/' :: "go".toList)
        0 1 "tid-a".toList).2 []).issues)).length ≤ 100 ∧
    ((tick [] (([] : List GhIssue).take 100)).1).length ≤ 100 := by
  have h := C9_single_page_of_100 (fun x => x) ⟨[], []⟩ "golang/go".toList
    "golang".toList "go".toList [] 0 1 "tid-a".toList rfl
  have h3 := h.2.2.1
    ⟨(get_or_create_fetch_operation [] ("golang".toList ++ '/' :: "go".toList) 0 1
        "tid-a".toList).2, []⟩
    ⟨0, "tid-a".toList, "golang/go".toList⟩ rfl
  exact ⟨h.1, h.2.1, h3.1, h3.2, h.2.2.2 []⟩

/-! ## Generic helpers for the Python string model -/

theorem dropWhile_eq_self_of_head? (p : Char → Bool) (l : PyStr)
    (h : ∀ a, l.head? = some a → p a = false) : l.dropWhile p = l := by
  cases l with
  | nil => rfl
  | cons a t => exact List.dropWhile_cons_of_neg (by simp [h a rfl])

theorem dropWhile_eq_self_of_all (p : Char → Bool) (l : PyStr)
    (h : ∀ a ∈ l, p a = false) : l.dropWhile p = l := by
  refine dropWhile_eq_self_of_head? p l (fun a ha => ?_)
  obtain ⟨ys, rfl⟩ := List.head?_eq_some_iff.mp ha
  exact h a (by simp)

theorem takeWhile_eq_self_of_all (p : Char → Bool) (l : PyStr)
    (h : ∀ a ∈ l, p a = true) : l.takeWhile p = l := by
  simpa using @List.takeWhile_append_of_pos Char p l [] h

theorem strip2_eq_self (p : Char → Bool) (s : PyStr)
    (hhead : ∀ a, s.head? = some a → p a = false)
    (hlast : ∀ a, s.getLast? = some a → p a = false) :
    ((s.dropWhile p).reverse.dropWhile p).reverse = s := by
  rw [dropWhile_eq_self_of_head? p s hhead,
    dropWhile_eq_self_of_head? p s.reverse
      (fun a ha => hlast a (by rwa [List.head?_reverse] at ha)),
    List.reverse_reverse]

theorem getLast?_mem_self (l : PyStr) (a : Char) (h : l.getLast? = some a) : a ∈ l := by
  rcases List.getLast?_eq_some_iff.mp h with ⟨ys, rfl⟩
  simp

theorem getLast?_append_right (x l : PyStr) (hl : l ≠ []) :
    (x ++ l).getLast? = l.getLast? := by
  rw [List.getLast?_append]
  cases hgl : l.getLast? with
  | none => exact absurd (List.getLast?_eq_none_iff.mp hgl) hl
  | some a => rfl

/-! ## Lemmas about `splitOnChar` -/

theorem splitOnChar_ne_nil (sep : Char) (s : PyStr) : splitOnChar sep s ≠ [] := by
  cases s with
  | nil => simp [splitOnChar]
  | cons c rest =>
    rw [splitOnChar]
    cases h : splitOnChar sep rest with
    | nil => simp
    | cons h t =>
      by_cases hc : c = sep <;> simp [hc]

theorem splitOnChar_of_not_mem (sep : Char) (s : PyStr) (h : sep ∉ s) :
    splitOnChar sep s = [s] := by
  induction s with
  | nil => rfl
  | cons c rest ih =>
    have hc : ¬c = sep := fun hh => h (by simp [hh])
    rw [splitOnChar, ih (fun hm => h (by simp [hm]))]
    simp [hc]

theorem splitOnChar_append (sep : Char) (xs ys : PyStr) (h : sep ∉ xs) :
    splitOnChar sep (xs ++ sep :: ys) = xs :: splitOnChar sep ys := by
  induction xs with
  | nil =>
    rw [List.nil_append, splitOnChar]
    cases hs : splitOnChar sep ys with
    | nil => exact absurd hs (splitOnChar_ne_nil sep ys)
    | cons a t => simp
  | cons c xs' ih =>
    have hc : ¬c = sep := fun hh => h (by simp [hh])
    rw [List.cons_append, splitOnChar, ih (fun hm => h (by simp [hm]))]
    simp [hc]

theorem splitOnChar_cons_ne (sep a : Char) (t : PyStr) (ha : ¬a = sep) :
    ∃ hd rest, splitOnChar sep (a :: t) = (a :: hd) :: rest ∧
      splitOnChar sep t = hd :: rest := by
  cases hs : splitOnChar sep t with
  | nil => exact absurd hs (splitOnChar_ne_nil sep t)
  | cons hd rest =>
    refine ⟨hd, rest, ?_, rfl⟩
    rw [splitOnChar, hs]
    simp [ha]

theorem splitOnChar_cons_eq (sep c : Char) (t : PyStr) (hd : PyStr) (rest : List PyStr)
    (hsp : splitOnChar sep t = hd :: rest) :
    splitOnChar sep (c :: t) =
      if c = sep then [] :: hd :: rest else (c :: hd) :: rest := by
  rw [splitOnChar, hsp]

theorem splitOnChar_getLast_ne (sep : Char) (s : PyStr) (hs : s ≠ [])
    (hlast : s.getLast? ≠ some sep) :
    ∀ L, (splitOnChar sep s).getLast? = some L → L ≠ [] := by
  induction s with
  | nil => exact absurd rfl hs
  | cons c t ih =>
    intro L hL
    cases t with
    | nil =>
      have hc : ¬c = sep := fun hh => hlast (by simp [hh])
      rw [splitOnChar_cons_eq sep c [] [] [] rfl, if_neg hc] at hL
      simp at hL
      simp [← hL]
    | cons c2 t2 =>
      have hlast2 : (c2 :: t2).getLast? ≠ some sep := by
        rwa [List.getLast?_cons_cons] at hlast
      have ih2 := ih (by simp) hlast2
      cases hsp : splitOnChar sep (c2 :: t2) with
      | nil => exact absurd hsp (splitOnChar_ne_nil sep _)
      | cons hd rest =>
        rw [splitOnChar_cons_eq sep c _ hd rest hsp] at hL
        by_cases hc : c = sep
        · rw [if_pos hc] at hL
          rw [List.getLast?_cons_cons] at hL
          exact ih2 L (by rw [hsp]; exact hL)
        · rw [if_neg hc] at hL
          cases rest with
          | nil =>
            simp at hL
            rw [← hL]
            simp
          | cons r rs =>
            rw [List.getLast?_cons_cons] at hL
            refine ih2 L ?_
            rw [hsp, List.getLast?_cons_cons]
            exact hL

/-! ## Lemmas about `goodChar` -/

theorem goodChar_props (c : Char) (h : goodChar c = true) :
    pyWs c = false ∧ c ≠ ',' ∧ c ≠ '/' ∧ c ≠ '?' ∧ c ≠ '#' ∧ c ≠ ';' := by
  unfold goodChar at h
  simp only [Bool.and_eq_true, Bool.not_eq_true', Bool.or_eq_false_iff,
    decide_eq_false_iff_not] at h
  refine ⟨h.1, ?_, ?_, ?_, ?_, ?_⟩ <;> tauto

/-- A character whose `goodChar` test fails cannot occur in an all-good
string. -/
theorem good_not_mem (s : PyStr) (hs : ∀ c ∈ s, goodChar c = true)
    (c : Char) (hc : goodChar c = false) : c ∉ s := by
  intro hm
  rw [hs c hm] at hc
  cases hc

theorem good_ws (s : PyStr) (hs : ∀ c ∈ s, goodChar c = true) :
    ∀ c ∈ s, pyWs c = false :=
  fun c hc => (goodChar_props c (hs c hc)).1

/-! ## Lemmas about `startsWithL`, `pyStrip` and `splitParams` -/

theorem startsWithL_count (p : PyStr) : ∀ (s : PyStr), startsWithL p s = true →
    ∀ c, List.count c p ≤ List.count c s := by
  induction p with
  | nil => intro s _ c; simp
  | cons a p' ih =>
    intro s h c
    cases s with
    | nil => simp [startsWithL] at h
    | cons b s' =>
      rw [startsWithL] at h
      simp only [Bool.and_eq_true, decide_eq_true_eq] at h
      obtain ⟨rfl, h2⟩ := h
      simp only [List.count_cons]
      exact Nat.add_le_add (ih s' h2 c) (Nat.le_refl _)

theorem not_http_of_count (s : PyStr) (h : List.count '/' s < 2) :
    startsWithL "http://".toList s = false ∧ startsWithL "https://".toList s = false := by
  constructor
  · cases hs : startsWithL "http://".toList s with
    | false => rfl
    | true =>
      have hc := startsWithL_count _ s hs '/'
      have he : List.count '/' "http://".toList = 2 := by decide
      rw [he] at hc
      omega
  · cases hs : startsWithL "https://".toList s with
    | false => rfl
    | true =>
      have hc := startsWithL_count _ s hs '/'
      have he : List.count '/' "https://".toList = 2 := by decide
      rw [he] at hc
      omega

theorem count_slash_sep_form (owner repo : PyStr) (sep : Char)
    (h1 : '/' ∉ owner) (h2 : '/' ∉ repo) :
    List.count '/' (owner ++ sep :: repo)
      = (if sep == '/' then 1 else 0) := by
  rw [List.count_append, List.count_cons, List.count_eq_zero_of_not_mem h1,
    List.count_eq_zero_of_not_mem h2]
  simp

theorem pyStrip_eq_self_of_all (s : PyStr) (h : ∀ c ∈ s, pyWs c = false) :
    pyStrip s = s := by
  unfold pyStrip
  refine strip2_eq_self pyWs s (fun a ha => ?_) (fun a ha => ?_)
  · obtain ⟨ys, rfl⟩ := List.head?_eq_some_iff.mp ha
    exact h a (by simp)
  · exact h a (getLast?_mem_self s a ha)

theorem pyStrip_frame (xs mid ys : PyStr) (hx : xs ≠ []) (hy : ys ≠ [])
    (h1 : ∀ c ∈ xs, pyWs c = false) (h2 : ∀ c ∈ ys, pyWs c = false) :
    pyStrip (xs ++ (mid ++ ys)) = xs ++ (mid ++ ys) := by
  unfold pyStrip
  refine strip2_eq_self pyWs _ (fun a ha => ?_) (fun a ha => ?_)
  · cases xs with
    | nil => exact absurd rfl hx
    | cons x xs' =>
      rw [List.cons_append, List.head?_cons, Option.some.injEq] at ha
      exact ha ▸ h1 x (by simp)
  · rw [getLast?_append_right xs (mid ++ ys) (by simp [hy]),
      getLast?_append_right mid ys hy] at ha
    exact h2 a (getLast?_mem_self ys a ha)

theorem ne_semi_of_not_mem (p : PyStr) (h : ';' ∉ p) (c : Char) (hc : c ∈ p) :
    (!(decide (c = ';'))) = true := by
  by_cases hcs : c = ';'
  · subst hcs; exact absurd hc h
  · simp [hcs]

theorem splitParams_eq_self (p : PyStr) (h : ';' ∉ p) : splitParams p = p := by
  unfold splitParams
  by_cases hs : '/' ∈ p
  · rw [if_pos hs]
    dsimp only
    have hsub : ∀ c ∈ (List.takeWhile (fun c => !(decide (c = '/'))) p.reverse).reverse,
        (!(decide (c = ';'))) = true := by
      intro c hc
      rw [List.mem_reverse] at hc
      exact ne_semi_of_not_mem p h c
        (List.mem_reverse.mp ((List.takeWhile_sublist _).mem hc))
    rw [takeWhile_eq_self_of_all _ _ hsub, ← List.reverse_append,
      List.takeWhile_append_dropWhile, List.reverse_reverse]
  · rw [if_neg hs]
    exact takeWhile_eq_self_of_all _ _ (fun c hc => ne_semi_of_not_mem p h c hc)

/-! ## The five surface forms of claim C6 (amended) -/

theorem ne_decide_bool (c d : Char) (h : c ≠ d) : (!(decide (c = d))) = true := by
  simp [h]

theorem good_not_tcn (c : Char) (h : goodChar c = true) :
    (!(decide (c = '\t') || decide (c = '\r') || decide (c = '\n'))) = true := by
  have hws := (goodChar_props c h).1
  have h1 : c ≠ '\t' := fun hh => by rw [hh] at hws; exact absurd hws (by decide)
  have h2 : c ≠ '\r' := fun hh => by rw [hh] at hws; exact absurd hws (by decide)
  have h3 : c ≠ '\n' := fun hh => by rw [hh] at hws; exact absurd hws (by decide)
  simp [h1, h2, h3]

theorem mem_core_cases (owner repo : PyStr) (c : Char)
    (hc : c ∈ owner ++ '/' :: repo) : c = '/' ∨ c ∈ owner ∨ c ∈ repo := by
  rcases List.mem_append.mp hc with h | h
  · exact Or.inr (Or.inl h)
  · rcases List.mem_cons.mp h with h | h
    · exact Or.inl h
    · exact Or.inr (Or.inr h)

theorem sep_not_mem_core (owner repo : PyStr)
    (howner : ∀ c ∈ owner, goodChar c = true) (hrepo : ∀ c ∈ repo, goodChar c = true)
    (sep : Char) (hgood : goodChar sep = false) (hslash : sep ≠ '/') :
    sep ∉ owner ++ '/' :: repo := by
  intro hm
  rcases mem_core_cases owner repo sep hm with h | h | h
  · exact hslash h
  · exact good_not_mem owner howner sep hgood h
  · exact good_not_mem repo hrepo sep hgood h

theorem lead_slash_false (owner : PyStr) (rest : PyStr) (ho : owner ≠ [])
    (howner : ∀ c ∈ owner, goodChar c = true) :
    startsWithL "/".toList (owner ++ rest) = false := by
  cases owner with
  | nil => exact absurd rfl ho
  | cons a own' =>
    have ha : a ≠ '/' := (goodChar_props a (howner a (by simp))).2.2.1
    rw [List.cons_append]
    show (decide ('/' = a) && startsWithL [] (own' ++ rest)) = false
    have hsym : ('/' : Char) ≠ a := fun hh => ha hh.symm
    simp [hsym]

theorem normalize_form_slash (owner repo : PyStr) (ho : owner ≠ []) (hr : repo ≠ [])
    (howner : ∀ c ∈ owner, goodChar c = true) (hrepo : ∀ c ∈ repo, goodChar c = true) :
    normalize_repo_identifier (owner ++ '/' :: repo) = .ok (owner, repo) := by
  have hso : '/' ∉ owner := good_not_mem owner howner '/' (by decide)
  have hsr : '/' ∉ repo := good_not_mem repo hrepo '/' (by decide)
  have hne : owner ++ '/' :: repo ≠ [] := by simp
  have hstrip : pyStrip (owner ++ '/' :: repo) = owner ++ '/' :: repo := by
    have := pyStrip_frame owner ['/'] repo ho hr (good_ws owner howner) (good_ws repo hrepo)
    simpa using this
  have hcount : List.count '/' (owner ++ '/' :: repo) = 1 := by
    have := count_slash_sep_form owner repo '/' hso hsr
    simpa using this
  have hhttp := not_http_of_count (owner ++ '/' :: repo) (by omega)
  have hlead := lead_slash_false owner ('/' :: repo) ho howner
  have hspace : ' ' ∉ owner ++ '/' :: repo :=
    sep_not_mem_core owner repo howner hrepo ' ' (by decide) (by decide)
  have hcomma : ',' ∉ owner ++ '/' :: repo :=
    sep_not_mem_core owner repo howner hrepo ',' (by decide) (by decide)
  have hslash_mem : '/' ∈ owner ++ '/' :: repo := by simp
  have hsplit : splitOnChar '/' (owner ++ '/' :: repo) = [owner, repo] := by
    rw [splitOnChar_append '/' owner repo hso, splitOnChar_of_not_mem '/' repo hsr]
  have hpo : pyStrip owner = owner := pyStrip_eq_self_of_all owner (good_ws owner howner)
  have hpr : pyStrip repo = repo := pyStrip_eq_self_of_all repo (good_ws repo hrepo)
  unfold normalize_repo_identifier
  rw [if_neg hne]
  simp only [hstrip, hhttp.1, hhttp.2, hlead, Bool.or_self, Bool.false_eq_true, if_false,
    hsplit]
  rw [if_neg hspace, if_neg hcomma, if_pos hslash_mem]
  simp [ho, hr, hpo, hpr]

theorem mem_form_cases (owner repo : PyStr) (mid c : Char)
    (hc : c ∈ owner ++ mid :: repo) : c = mid ∨ c ∈ owner ∨ c ∈ repo := by
  rcases List.mem_append.mp hc with h | h
  · exact Or.inr (Or.inl h)
  · rcases List.mem_cons.mp h with h | h
    · exact Or.inl h
    · exact Or.inr (Or.inr h)

theorem sep_not_mem_form (owner repo : PyStr)
    (howner : ∀ c ∈ owner, goodChar c = true) (hrepo : ∀ c ∈ repo, goodChar c = true)
    (mid sep : Char) (hgood : goodChar sep = false) (hmid : sep ≠ mid) :
    sep ∉ owner ++ mid :: repo := by
  intro hm
  rcases mem_form_cases owner repo mid sep hm with h | h | h
  · exact hmid h
  · exact good_not_mem owner howner sep hgood h
  · exact good_not_mem repo hrepo sep hgood h

theorem normalize_form_space (owner repo : PyStr) (ho : owner ≠ []) (hr : repo ≠ [])
    (howner : ∀ c ∈ owner, goodChar c = true) (hrepo : ∀ c ∈ repo, goodChar c = true) :
    normalize_repo_identifier (owner ++ ' ' :: repo) = .ok (owner, repo) := by
  have hso : ' ' ∉ owner := good_not_mem owner howner ' ' (by decide)
  have hsr : ' ' ∉ repo := good_not_mem repo hrepo ' ' (by decide)
  have hne : owner ++ ' ' :: repo ≠ [] := by simp
  have hstrip : pyStrip (owner ++ ' ' :: repo) = owner ++ ' ' :: repo := by
    have := pyStrip_frame owner [' '] repo ho hr (good_ws owner howner) (good_ws repo hrepo)
    simpa using this
  have hcount : List.count '/' (owner ++ ' ' :: repo) = 0 :=
    List.count_eq_zero_of_not_mem
      (sep_not_mem_form owner repo howner hrepo ' ' '/' (by decide) (by decide))
  have hhttp := not_http_of_count (owner ++ ' ' :: repo) (by omega)
  have hlead := lead_slash_false owner (' ' :: repo) ho howner
  have hspace_mem : ' ' ∈ owner ++ ' ' :: repo := by simp
  have hsplit : splitOnChar ' ' (owner ++ ' ' :: repo) = [owner, repo] := by
    rw [splitOnChar_append ' ' owner repo hso, splitOnChar_of_not_mem ' ' repo hsr]
  have hpo : pyStrip owner = owner := pyStrip_eq_self_of_all owner (good_ws owner howner)
  have hpr : pyStrip repo = repo := pyStrip_eq_self_of_all repo (good_ws repo hrepo)
  unfold normalize_repo_identifier
  rw [if_neg hne]
  simp only [hstrip, hhttp.1, hhttp.2, hlead, Bool.or_self, Bool.false_eq_true, if_false,
    hsplit]
  rw [if_pos hspace_mem]
  simp [ho, hr, hpo, hpr]

theorem normalize_form_comma (owner repo : PyStr) (ho : owner ≠ []) (hr : repo ≠ [])
    (howner : ∀ c ∈ owner, goodChar c = true) (hrepo : ∀ c ∈ repo, goodChar c = true) :
    normalize_repo_identifier (owner ++ ',' :: repo) = .ok (owner, repo) := by
  have hso : ',' ∉ owner := good_not_mem owner howner ',' (by decide)
  have hsr : ',' ∉ repo := good_not_mem repo hrepo ',' (by decide)
  have hne : owner ++ ',' :: repo ≠ [] := by simp
  have hstrip : pyStrip (owner ++ ',' :: repo) = owner ++ ',' :: repo := by
    have := pyStrip_frame owner [','] repo ho hr (good_ws owner howner) (good_ws repo hrepo)
    simpa using this
  have hcount : List.count '/' (owner ++ ',' :: repo) = 0 :=
    List.count_eq_zero_of_not_mem
      (sep_not_mem_form owner repo howner hrepo ',' '/' (by decide) (by decide))
  have hhttp := not_http_of_count (owner ++ ',' :: repo) (by omega)
  have hlead := lead_slash_false owner (',' :: repo) ho howner
  have hspace : ' ' ∉ owner ++ ',' :: repo :=
    sep_not_mem_form owner repo howner hrepo ',' ' ' (by decide) (by decide)
  have hcomma_mem : ',' ∈ owner ++ ',' :: repo := by simp
  have hsplit : splitOnChar ',' (owner ++ ',' :: repo) = [owner, repo] := by
    rw [splitOnChar_append ',' owner repo hso, splitOnChar_of_not_mem ',' repo hsr]
  have hpo : pyStrip owner = owner := pyStrip_eq_self_of_all owner (good_ws owner howner)
  have hpr : pyStrip repo = repo := pyStrip_eq_self_of_all repo (good_ws repo hrepo)
  unfold normalize_repo_identifier
  rw [if_neg hne]
  simp only [hstrip, hhttp.1, hhttp.2, hlead, Bool.or_self, Bool.false_eq_true, if_false,
    hsplit]
  rw [if_neg hspace, if_pos hcomma_mem]
  simp [ho, hr, hpo, hpr]

theorem normalize_form_lead_slash (owner repo : PyStr) (ho : owner ≠ []) (hr : repo ≠ [])
    (howner : ∀ c ∈ owner, goodChar c = true) (hrepo : ∀ c ∈ repo, goodChar c = true) :
    normalize_repo_identifier ('/' :: (owner ++ '/' :: repo)) = .ok (owner, repo) := by
  have hso : '/' ∉ owner := good_not_mem owner howner '/' (by decide)
  have hsr : '/' ∉ repo := good_not_mem repo hrepo '/' (by decide)
  have hne : ('/' :: (owner ++ '/' :: repo)) ≠ [] := by simp
  have hstrip : pyStrip ('/' :: (owner ++ '/' :: repo)) = '/' :: (owner ++ '/' :: repo) := by
    have := pyStrip_frame ['/'] (owner ++ ['/']) repo (by simp) hr
      (by intro c hc; simp at hc; subst hc; decide) (good_ws repo hrepo)
    simpa [List.append_assoc] using this
  have hh1 : startsWithL "http://".toList ('/' :: (owner ++ '/' :: repo)) = false := rfl
  have hh2 : startsWithL "https://".toList ('/' :: (owner ++ '/' :: repo)) = false := rfl
  have hlead : startsWithL "/".toList ('/' :: (owner ++ '/' :: repo)) = true := rfl
  have hspace : ' ' ∉ owner ++ '/' :: repo :=
    sep_not_mem_core owner repo howner hrepo ' ' (by decide) (by decide)
  have hcomma : ',' ∉ owner ++ '/' :: repo :=
    sep_not_mem_core owner repo howner hrepo ',' (by decide) (by decide)
  have hslash_mem : '/' ∈ owner ++ '/' :: repo := by simp
  have hsplit : splitOnChar '/' (owner ++ '/' :: repo) = [owner, repo] := by
    rw [splitOnChar_append '/' owner repo hso, splitOnChar_of_not_mem '/' repo hsr]
  have hpo : pyStrip owner = owner := pyStrip_eq_self_of_all owner (good_ws owner howner)
  have hpr : pyStrip repo = repo := pyStrip_eq_self_of_all repo (good_ws repo hrepo)
  unfold normalize_repo_identifier
  rw [if_neg hne]
  simp only [hstrip, hh1, hh2, hlead, Bool.or_self, Bool.false_eq_true, if_false, if_true,
    List.drop_succ_cons, List.drop_zero]
  rw [if_neg hspace, if_neg hcomma, if_pos hslash_mem]
  rw [hsplit]
  simp [ho, hr, hpo, hpr]

theorem normalize_form_url (owner repo : PyStr) (ho : owner ≠ []) (hr : repo ≠ [])
    (howner : ∀ c ∈ owner, goodChar c = true) (hrepo : ∀ c ∈ repo, goodChar c = true) :
    normalize_repo_identifier ("https://host/".toList ++ (owner ++ '/' :: repo))
      = .ok (owner, repo) := by
  have hso : '/' ∉ owner := good_not_mem owner howner '/' (by decide)
  have hsr : '/' ∉ repo := good_not_mem repo hrepo '/' (by decide)
  have hne : "https://host/".toList ++ (owner ++ '/' :: repo) ≠ [] := by simp
  have hstrip : pyStrip ("https://host/".toList ++ (owner ++ '/' :: repo))
      = "https://host/".toList ++ (owner ++ '/' :: repo) := by
    have := pyStrip_frame "https://host/".toList (owner ++ ['/']) repo (by decide) hr
      (by decide) (good_ws repo hrepo)
    simpa [List.append_assoc] using this
  have hcond : (startsWithL "http://".toList ("https://host/".toList ++ (owner ++ '/' :: repo))
      || startsWithL "https://".toList ("https://host/".toList ++ (owner ++ '/' :: repo)))
      = true := rfl
  have hfilter_t : dropTabCrLf (owner ++ '/' :: repo) = owner ++ '/' :: repo := by
    unfold dropTabCrLf
    refine List.filter_eq_self.mpr (fun c hc => ?_)
    rcases mem_core_cases owner repo c hc with rfl | h | h
    · decide
    · exact good_not_tcn c (howner c h)
    · exact good_not_tcn c (hrepo c h)
  have htake1 : List.takeWhile (fun c => !(decide (c = '#'))) (owner ++ '/' :: repo)
      = owner ++ '/' :: repo := by
    refine takeWhile_eq_self_of_all _ _ (fun c hc => ?_)
    rcases mem_core_cases owner repo c hc with rfl | h | h
    · decide
    · exact ne_decide_bool c '#' (goodChar_props c (howner c h)).2.2.2.2.1
    · exact ne_decide_bool c '#' (goodChar_props c (hrepo c h)).2.2.2.2.1
  have htake2 : List.takeWhile (fun c => !(decide (c = '?'))) (owner ++ '/' :: repo)
      = owner ++ '/' :: repo := by
    refine takeWhile_eq_self_of_all _ _ (fun c hc => ?_)
    rcases mem_core_cases owner repo c hc with rfl | h | h
    · decide
    · exact ne_decide_bool c '?' (goodChar_props c (howner c h)).2.2.2.1
    · exact ne_decide_bool c '?' (goodChar_props c (hrepo c h)).2.2.2.1
  have hsemi : (';' : Char) ∉ '/' :: (owner ++ '/' :: repo) := by
    intro hm
    rcases List.mem_cons.mp hm with h | h
    · exact absurd h (by decide)
    · rcases mem_core_cases owner repo ';' h with h2 | h2 | h2
      · exact absurd h2 (by decide)
      · exact good_not_mem owner howner ';' (by decide) h2
      · exact good_not_mem repo hrepo ';' (by decide) h2
  have hpath : urlPath ("https://host/".toList ++ (owner ++ '/' :: repo))
      = '/' :: (owner ++ '/' :: repo) := by
    have e : urlPath ("https://host/".toList ++ (owner ++ '/' :: repo))
        = splitParams ('/' :: List.takeWhile (fun c => !(decide (c = '?')))
            (List.takeWhile (fun c => !(decide (c = '#')))
              (dropTabCrLf (owner ++ '/' :: repo)))) := rfl
    rw [e, hfilter_t, htake1, htake2, splitParams_eq_self _ hsemi]
  have hstripall : stripAllChar '/' ('/' :: (owner ++ '/' :: repo)) = owner ++ '/' :: repo := by
    unfold stripAllChar
    have e1 : List.dropWhile (fun c => decide (c = '/')) ('/' :: (owner ++ '/' :: repo))
        = List.dropWhile (fun c => decide (c = '/')) (owner ++ '/' :: repo) :=
      List.dropWhile_cons_of_pos (by decide)
    have e2 : List.dropWhile (fun c => decide (c = '/')) (owner ++ '/' :: repo)
        = owner ++ '/' :: repo := by
      refine dropWhile_eq_self_of_head? _ _ (fun a ha => ?_)
      cases owner with
      | nil => exact absurd rfl ho
      | cons a0 own' =>
        rw [List.cons_append, List.head?_cons, Option.some.injEq] at ha
        subst ha
        simp [(goodChar_props a0 (howner a0 (by simp))).2.2.1]
    have e3 : List.dropWhile (fun c => decide (c = '/')) ((owner ++ '/' :: repo).reverse)
        = (owner ++ '/' :: repo).reverse := by
      refine dropWhile_eq_self_of_head? _ _ (fun a ha => ?_)
      rw [List.head?_reverse] at ha
      rw [getLast?_append_right owner ('/' :: repo) (by simp)] at ha
      rw [show ('/' :: repo) = ['/'] ++ repo from rfl,
        getLast?_append_right ['/'] repo hr] at ha
      simp [(goodChar_props a (hrepo a (getLast?_mem_self repo a ha))).2.2.1]
    rw [e1, e2, e3, List.reverse_reverse]
  have hsplit : splitOnChar '/' (owner ++ '/' :: repo) = [owner, repo] := by
    rw [splitOnChar_append '/' owner repo hso, splitOnChar_of_not_mem '/' repo hsr]
  unfold normalize_repo_identifier
  rw [if_neg hne]
  simp only [hstrip]
  rw [if_pos hcond, hpath, hstripall, hsplit]

/-! ## Claim C6 -/

/-- Counterexample to claim C6 as stated: owner `"\ta"` is non-empty and
contains no space, comma, or slash, yet the surface form `"owner/repo"` with
repo `"b"` normalizes to `("a", "b")` — the leading tab is eaten by the
normalizer's `raw.strip()` — so the roundtrip to exactly `(owner, repo)`
fails. -/
theorem C6_counterexample :
    (['\t', 'a'] : PyStr) ≠ [] ∧ (['b'] : PyStr) ≠ [] ∧
    (∀ c ∈ (['\t', 'a'] : PyStr), c ≠ ' ' ∧ c ≠ ',' ∧ c ≠ '/') ∧
    (∀ c ∈ (['b'] : PyStr), c ≠ ' ' ∧ c ≠ ',' ∧ c ≠ '/') ∧
    normalize_repo_identifier (['\t', 'a'] ++ '/' :: ['b']) = .ok (['a'], ['b']) ∧
    ((['a'] : PyStr), (['b'] : PyStr)) ≠ ((['\t', 'a'] : PyStr), (['b'] : PyStr)) :=
  ⟨by decide, by decide, by decide, by decide, rfl, by decide⟩

/-- Claim C6 as amended: for every pair of non-empty strings `(owner, repo)`
whose characters contain no whitespace (the counterexample shows a tab is
eaten by `strip()`) and none of the delimiter characters `,` `/` `?` `#` `;`
(the extra three are consumed by the URL parse), each of the five surface
forms `"owner/repo"`, `"owner repo"`, `"owner,repo"`,
`"https://host/owner/repo"` and `"/owner/repo"` normalizes to exactly
`(owner, repo)`. -/
theorem C6_normalizer_roundtrip (owner repo : PyStr) (ho : owner ≠ []) (hr : repo ≠ [])
    (howner : ∀ c ∈ owner, goodChar c = true) (hrepo : ∀ c ∈ repo, goodChar c = true) :
    normalize_repo_identifier (owner ++ '/' :: repo) = .ok (owner, repo) ∧
    normalize_repo_identifier (owner ++ ' ' :: repo) = .ok (owner, repo) ∧
    normalize_repo_identifier (owner ++ ',' :: repo) = .ok (owner, repo) ∧
    normalize_repo_identifier ("https://host/".toList ++ (owner ++ '/' :: repo))
      = .ok (owner, repo) ∧
    normalize_repo_identifier ('/' :: (owner ++ '/' :: repo)) = .ok (owner, repo) :=
  ⟨normalize_form_slash owner repo ho hr howner hrepo,
   normalize_form_space owner repo ho hr howner hrepo,
   normalize_form_comma owner repo ho hr howner hrepo,
   normalize_form_url owner repo ho hr howner hrepo,
   normalize_form_lead_slash owner repo ho hr howner hrepo⟩

theorem C6_witness :
    normalize_repo_identifier ("golang".toList ++ '/' :: "go".toList)
      = .ok ("golang".toList, "go".toList) ∧
    normalize_repo_identifier ("golang".toList ++ ' ' :: "go".toList)
      = .ok ("golang".toList, "go".toList) ∧
    normalize_repo_identifier ("golang".toList ++ ',' :: "go".toList)
      = .ok ("golang".toList, "go".toList) ∧
    normalize_repo_identifier ("https://host/".toList ++ ("golang".toList ++ '/' :: "go".toList))
      = .ok ("golang".toList, "go".toList) ∧
    normalize_repo_identifier ('/' :: ("golang".toList ++ '/' :: "go".toList))
      = .ok ("golang".toList, "go".toList) :=
  C6_normalizer_roundtrip "golang".toList "go".toList (by decide) (by decide)
    (by decide) (by decide)

/-! ## Claim C7 -/

theorem dropWhile_head?_false (p : Char → Bool) (l : PyStr) (a : Char)
    (h : (l.dropWhile p).head? = some a) : p a = false := by
  induction l with
  | nil => simp at h
  | cons c t ih =>
    by_cases hc : p c = true
    · rw [List.dropWhile_cons_of_pos hc] at h
      exact ih h
    · rw [List.dropWhile_cons_of_neg (by simpa using hc)] at h
      rw [List.head?_cons, Option.some.injEq] at h
      rw [← h]
      simpa using hc

theorem stripAllChar_head_false (sep : Char) (s : PyStr) (a : Char)
    (h : (stripAllChar sep s).head? = some a) : (decide (a = sep)) = false := by
  have hY : s.dropWhile (fun c => decide (c = sep)) =
      stripAllChar sep s ++
        (List.takeWhile (fun c => decide (c = sep))
          (s.dropWhile (fun c => decide (c = sep))).reverse).reverse := by
    have e := List.takeWhile_append_dropWhile (fun c => decide (c = sep))
      (s.dropWhile (fun c => decide (c = sep))).reverse
    calc s.dropWhile (fun c => decide (c = sep))
        = (s.dropWhile (fun c => decide (c = sep))).reverse.reverse :=
          (List.reverse_reverse _).symm
      _ = (List.takeWhile (fun c => decide (c = sep))
              (s.dropWhile (fun c => decide (c = sep))).reverse ++
            List.dropWhile (fun c => decide (c = sep))
              (s.dropWhile (fun c => decide (c = sep))).reverse).reverse := by rw [e]
      _ = _ := by rw [List.reverse_append]; rfl
  have hYhead : (s.dropWhile (fun c => decide (c = sep))).head? = some a := by
    rw [hY, List.head?_append, h]
    rfl
  exact dropWhile_head?_false _ _ _ hYhead

theorem stripAllChar_getLast_false (sep : Char) (s : PyStr) (a : Char)
    (h : (stripAllChar sep s).getLast? = some a) : (decide (a = sep)) = false := by
  unfold stripAllChar at h
  rw [List.getLast?_reverse] at h
  exact dropWhile_head?_false _ _ _ h

/-- What the URL branch of the normalizer computes, for any path whose
slash-strip has been applied: failure is equivalent to having fewer than two
*non-empty* segments, and on success the owner is the (non-empty) first
segment — which is also the first non-empty one — while the repo is the
literal second segment, possibly empty. -/
theorem url_match_spec (q : PyStr)
    (hhead : ∀ a, q.head? = some a → (decide (a = '/')) = false)
    (hlast : ∀ a, q.getLast? = some a → (decide (a = '/')) = false) :
    ((match splitOnChar '/' q with
      | a :: b :: _ => (Except.ok (a, b) : Except PyStr (PyStr × PyStr))
      | _ => Except.error invalidUrlMsg) = Except.error invalidUrlMsg ↔
      ((splitOnChar '/' q).filter (fun p => !p.isEmpty)).length < 2) ∧
    (∀ o r, (match splitOnChar '/' q with
      | a :: b :: _ => (Except.ok (a, b) : Except PyStr (PyStr × PyStr))
      | _ => Except.error invalidUrlMsg) = Except.ok (o, r) →
      o ≠ [] ∧ (splitOnChar '/' q).head? = some o ∧
      ((splitOnChar '/' q).filter (fun p => !p.isEmpty)).head? = some o ∧
      (splitOnChar '/' q)[1]? = some r) := by
  cases q with
  | nil =>
    constructor
    · simp [splitOnChar]
    · intro o r h
      simp [splitOnChar] at h
  | cons a t =>
    have ha : ¬(a = '/') := by simpa using hhead a rfl
    obtain ⟨hd, rest, hsegs, _⟩ := splitOnChar_cons_ne '/' a t ha
    have hqlast : (a :: t).getLast? ≠ some '/' := by
      intro hh
      have := hlast '/' hh
      simp at this
    cases rest with
    | nil =>
      rw [hsegs]
      constructor
      · simp
      · intro o r h
        simp at h
    | cons seg2 rest2 =>
      rw [hsegs]
      constructor
      · constructor
        · intro h
          exact absurd h (by simp)
        · intro hlt
          exfalso
          have hgl : ((a :: hd) :: seg2 :: rest2).getLast? ≠ none := by
            simp
          obtain ⟨L, hL⟩ := Option.ne_none_iff_exists'.mp hgl
          have hLne : L ≠ [] := by
            refine splitOnChar_getLast_ne '/' (a :: t) (by simp) hqlast L ?_
            rw [hsegs]
            exact hL
          obtain ⟨ys, hys⟩ := List.getLast?_eq_some_iff.mp hL
          cases ys with
          | nil => simp at hys
          | cons y0 ys' =>
            rw [List.cons_append] at hys
            have htail : seg2 :: rest2 = ys' ++ [L] := (List.cons.inj hys).2
            have hsub : List.Sublist [a :: hd, L] ((a :: hd) :: seg2 :: rest2) := by
              rw [htail]
              exact List.Sublist.cons₂ _ (List.sublist_append_right ys' [L])
            have hfil : List.filter (fun p => !p.isEmpty) [a :: hd, L] = [a :: hd, L] := by
              cases L with
              | nil => exact absurd rfl hLne
              | cons x xs => simp
            have hlen := (List.Sublist.filter (fun p => !p.isEmpty) hsub).length_le
            rw [hfil] at hlen
            have h2 : (2 : Nat) ≤
                (List.filter (fun p => !p.isEmpty) ((a :: hd) :: seg2 :: rest2)).length := hlen
            exact absurd hlt (Nat.not_lt.mpr h2)
      · intro o r h
        simp only [Except.ok.injEq, Prod.mk.injEq] at h
        obtain ⟨h1, h2⟩ := h
        refine ⟨by simp [← h1], by simp [← h1], ?_, by simp [← h2]⟩
        rw [List.filter_cons_of_pos (by simp)]
        simp [← h1]

/-- Counterexample to claim C7 as stated: for `"https://host/a//b"` the first
two *non-empty* path segments are `"a"` and `"b"`, but the code keeps the
empty segment produced by the consecutive slashes and returns `("a", "")`. -/
theorem C7_counterexample :
    normalize_repo_identifier "https://host/a//b".toList = .ok ("a".toList, []) ∧
    ((splitOnChar '/' (stripAllChar '/' (urlPath (pyStrip "https://host/a//b".toList)))).filter
      (fun p => !p.isEmpty)) = ["a".toList, "b".toList] ∧
    ([] : PyStr) ≠ "b".toList :=
  ⟨rfl, rfl, by decide⟩

/-- Claim C7 as amended: for every input starting with `http://` or
`https://`, the normalizer fails with the `InvalidIdentifier` message exactly
when the slash-split of the slash-stripped URL path has fewer than two
non-empty segments; on success the returned owner is the first segment of
that split — it is non-empty and coincides with the first *non-empty*
segment — but the returned repo is the literal second segment, which keeps
empty segments produced by consecutive slashes (rather than discarding
them, as the original claim stated). -/
theorem C7_url_first_two_segments (raw : PyStr) (hne : raw ≠ [])
    (hurl : (startsWithL "http://".toList (pyStrip raw)
      || startsWithL "https://".toList (pyStrip raw)) = true) :
    (normalize_repo_identifier raw = .error invalidUrlMsg ↔
      ((splitOnChar '/' (stripAllChar '/' (urlPath (pyStrip raw)))).filter
        (fun p => !p.isEmpty)).length < 2) ∧
    (∀ o r, normalize_repo_identifier raw = .ok (o, r) →
      o ≠ [] ∧
      (splitOnChar '/' (stripAllChar '/' (urlPath (pyStrip raw)))).head? = some o ∧
      ((splitOnChar '/' (stripAllChar '/' (urlPath (pyStrip raw)))).filter
        (fun p => !p.isEmpty)).head? = some o ∧
      (splitOnChar '/' (stripAllChar '/' (urlPath (pyStrip raw))))[1]? = some r) := by
  have hnorm : normalize_repo_identifier raw =
      (match splitOnChar '/' (stripAllChar '/' (urlPath (pyStrip raw))) with
       | a :: b :: _ => (Except.ok (a, b) : Except PyStr (PyStr × PyStr))
       | _ => Except.error invalidUrlMsg) := by
    unfold normalize_repo_identifier
    rw [if_neg hne]
    dsimp only
    rw [if_pos hurl]
  rw [hnorm]
  exact url_match_spec (stripAllChar '/' (urlPath (pyStrip raw)))
    (fun a ha => stripAllChar_head_false '/' _ a ha)
    (fun a ha => stripAllChar_getLast_false '/' _ a ha)

theorem C7_witness :
    "golang".toList ≠ ([] : PyStr) ∧
    (splitOnChar '/' (stripAllChar '/'
      (urlPath (pyStrip "https://github.com/golang/go".toList)))).head?
        = some "golang".toList ∧
    ((splitOnChar '/' (stripAllChar '/'
      (urlPath (pyStrip "https://github.com/golang/go".toList)))).filter
        (fun p => !p.isEmpty)).head? = some "golang".toList ∧
    (splitOnChar '/' (stripAllChar '/'
      (urlPath (pyStrip "https://github.com/golang/go".toList))))[1]? = some "go".toList := by
  have h := C7_url_first_two_segments "https://github.com/golang/go".toList (by decide) rfl
  exact h.2 "golang".toList "go".toList rfl

end GithubApp
